import Mathlib

/-!
# TileMerge: a shallow embedding of `src/main.cpp`

TileMerge reads an XML description of a tile grid with Qt's pull parser and
composes one raster per `tileset` element.  The development below embeds the
functions of `main.cpp` as Lean functions and settles the statements of the
specification against them.

Conventions of the embedding.

* `unsigned int` values are naturals reduced modulo `2 ^ 32`; the conversion
  to `int` performed at Qt call boundaries is `toInt`.
* A `QString` is the list of its UTF-16 code units.
* The token stream that `QXmlStreamReader` reports for the input file is the
  input of the model: a reader is the current token together with the tokens
  still to be reported.
* A raster is its size together with its pixels; a pixel is four bytes.
* The capabilities of Qt that are not part of the program (number parsing of
  texts that are not plain digit strings, image decoding and scaling, text
  rendering, memory allocation) are the fields of `Env`.  The general theorems
  hold for every `Env`; `Env.sample` is one environment, used to evaluate the
  program on concrete inputs.
* A run that does not return is a value of `Failure`: a thrown `ErrorInfo`, a
  division by zero, or a loop that never ends.  The loops are run with a budget
  of iterations that is proved never to be used up.
-/

set_option autoImplicit false

namespace TileMerge

/-! ## Basic data -/

/-- A `QString`: the sequence of its UTF-16 code units. -/
abbrev QString := List Char

/-- One pixel of a `QImage::Format_RGBA8888` raster: four bytes. -/
structure Rgba where
  r : Fin 256
  g : Fin 256
  b : Fin 256
  a : Fin 256
deriving DecidableEq

/-- The pixel `(0,0,0,0)`. -/
def Rgba.clear : Rgba := ⟨0, 0, 0, 0⟩

/-- A `QColor`: whether its colour spec is valid, and its four channels.
`operator==` of `QColor` compares the spec and every channel, which is the
derived equality here. -/
structure QColor where
  valid : Bool
  rgba : Rgba
deriving DecidableEq

/-- The default-constructed (invalid) `QColor`: black with full alpha. -/
def QColor.invalid : QColor := ⟨false, ⟨0, 0, 0, 255⟩⟩

/-- The constructor `QColor(int r, int g, int b, int a)`: a valid colour when
every argument is in `0..255`, the invalid colour otherwise. -/
def QColor.fromRgb (r g b a : Nat) : QColor :=
  if r ≤ 255 ∧ g ≤ 255 ∧ b ≤ 255 ∧ a ≤ 255 then
    ⟨true, ⟨Fin.ofNat r, Fin.ofNat g, Fin.ofNat b, Fin.ofNat a⟩⟩
  else QColor.invalid

/-- The colour read back from a pixel (`QImage::pixelColor`). -/
def QColor.ofPixel (p : Rgba) : QColor := ⟨true, p⟩

/-- The record `ErrorInfo` of `main.cpp`. -/
structure ErrorInfo where
  id : Nat
  text : QString
deriving DecidableEq

/-- The record `TileSet` of `main.cpp`; `width` and `height` count columns and
rows, all four numbers are `unsigned int`. -/
structure TileSet where
  name : QString
  width : Nat
  height : Nat
  tile_width : Nat
  tile_height : Nat
  background : QColor
deriving DecidableEq

/-- The record `ImageInfo` of `main.cpp`. `transparent_color` is left
default-constructed when the attribute is absent. -/
structure ImageInfo where
  source : QString
  transparent_color : QColor
  has_transparent_color : Bool
deriving DecidableEq

/-- The record `TextInfo` of `main.cpp`. -/
structure TextInfo where
  content : QString
  size : Nat
  color : QColor
deriving DecidableEq

/-- A raster: `width × height` pixels, the pixel at column `x` and row `y`
being `data x y`.  The null image has width and height zero. -/
structure QImage where
  width : Nat
  height : Nat
  data : Nat → Nat → Rgba

/-- The capabilities of Qt and of the machine that the program relies on and
that are not part of `main.cpp`. -/
structure Env where
  /-- What `toUInt` returns in the given base for a text that is not a
  non-empty string of digits of that base (signs, blanks, other characters). -/
  toUIntOther : Nat → QString → Nat
  /-- Whether a raster of the given positive width and height can be
  allocated. -/
  allocates : Nat → Nat → Bool
  /-- The content of a raster that has been allocated but not written. -/
  uninit : Nat → Nat → Rgba
  /-- The pixels of a tile buffer of the given width and height after the image
  file at the given path has been loaded and drawn, scaled, over the whole
  buffer. -/
  scaledSource : QString → Nat → Nat → Nat → Nat → Rgba
  /-- The pixels of a tile buffer of the given width and height after the text
  has been drawn centred on the given pixels. -/
  drawText : TextInfo → Nat → Nat → (Nat → Nat → Rgba) → Nat → Nat → Rgba
  /-- The value of the `id` field of an `ErrorInfo` that was never assigned. -/
  uninitId : Nat

/-! ## Numbers and colours -/

/-- Two to the power 32, the modulus of `unsigned int`. -/
def UINT_MOD : Nat := 4294967296

/-- The conversion of an `unsigned int` to `int`. -/
def toInt (u : Nat) : Int :=
  if u % UINT_MOD < 2147483648 then ((u % UINT_MOD : Nat) : Int)
  else ((u % UINT_MOD : Nat) : Int) - 4294967296

/-- The value of a character as a digit of the given base (at most 16). -/
def digitValue (base : Nat) (c : Char) : Option Nat :=
  let v : Option Nat :=
    if 48 ≤ c.toNat ∧ c.toNat ≤ 57 then some (c.toNat - 48)
    else if 97 ≤ c.toNat ∧ c.toNat ≤ 102 then some (c.toNat - 87)
    else if 65 ≤ c.toNat ∧ c.toNat ≤ 70 then some (c.toNat - 55)
    else none
  match v with
  | some d => if d < base then some d else none
  | none => none

/-- The number written by a string of digits, most significant first, on top
of the digits `acc` already read; `none` when a character is not a digit. -/
def digitsValue (base : Nat) : Nat → QString → Option Nat
  | acc, [] => some acc
  | acc, c :: cs =>
    match digitValue base c with
    | some d => digitsValue base (acc * base + d) cs
    | none => none

/-- `QString::toUInt(nullptr, base)`: the number written by a non-empty digit
string when it fits an `unsigned int`, zero when it does not fit or the text
is empty, and what the library returns for every other text. -/
def toUInt (env : Env) (base : Nat) (s : QString) : Nat :=
  match s with
  | [] => 0
  | _ :: _ =>
    match digitsValue base 0 s with
    | some v => if v < UINT_MOD then v else 0
    | none => env.toUIntOther base s % UINT_MOD

/-- `QString::mid(position, n)`. -/
def mid (s : QString) (position n : Nat) : QString := (s.drop position).take n

/-- `ValueToColor` (main.cpp, lines 74-85). -/
def ValueToColor (env : Env) (value : QString) : QColor :=
  if value.length < 9 then QColor.fromRgb 0 0 0 0
  else
    let red := toUInt env 16 (mid value 1 2)
    let green := toUInt env 16 (mid value 3 2)
    let blue := toUInt env 16 (mid value 5 2)
    let alpha := toUInt env 16 (mid value 7 2)
    QColor.fromRgb red green blue alpha

/-! ## The XML token stream -/

/-- The token types of `QXmlStreamReader`. -/
inductive TokenType where
  | NoToken
  | Invalid
  | StartDocument
  | EndDocument
  | StartElement
  | EndElement
  | Characters
  | Comment
  | DTD
  | EntityReference
  | ProcessingInstruction
deriving DecidableEq

/-- One token reported by the reader: its type, the element name (start and
end elements) and the attributes (start elements). -/
structure Token where
  type : TokenType
  name : QString
  attributes : List (QString × QString)
deriving DecidableEq

/-- The token the reader reports once the stream is exhausted or broken. -/
def Token.invalid : Token := ⟨TokenType.Invalid, [], []⟩

/-- The reader before its first `readNext`. -/
def Token.none : Token := ⟨TokenType.NoToken, [], []⟩

/-- A `QXmlStreamReader`: the token it is positioned at and the tokens it has
still to report. -/
structure QXmlStreamReader where
  current : Token
  rest : List Token
deriving DecidableEq

namespace QXmlStreamReader

/-- `readNext()`: advance to the next token; past the last token the reader
reports `Invalid`, and keeps doing so. -/
def readNext (rd : QXmlStreamReader) : QXmlStreamReader :=
  match rd.rest with
  | [] => ⟨Token.invalid, []⟩
  | t :: ts => ⟨t, ts⟩

/-- `tokenType()`, also the value returned by the `readNext` that got here. -/
def tokenType (rd : QXmlStreamReader) : TokenType := rd.current.type

/-- `isEndElement()`. -/
def isEndElement (rd : QXmlStreamReader) : Bool :=
  decide (rd.current.type = TokenType.EndElement)

/-- `name()`: the name of a start element, end element or entity reference,
empty at every other token. -/
def name (rd : QXmlStreamReader) : QString :=
  if rd.current.type = TokenType.StartElement ∨ rd.current.type = TokenType.EndElement
      ∨ rd.current.type = TokenType.EntityReference then rd.current.name
  else []

/-- `attributes()`: the attributes of a start element, none at every other
token. -/
def attributes (rd : QXmlStreamReader) : List (QString × QString) :=
  if rd.current.type = TokenType.StartElement then rd.current.attributes else []

/-- `atEnd()`: the end of the document has been reported, or an error has. -/
def atEnd (rd : QXmlStreamReader) : Bool :=
  decide (rd.current.type = TokenType.EndDocument ∨ rd.current.type = TokenType.Invalid)

/-- `hasError()`. -/
def hasError (rd : QXmlStreamReader) : Bool :=
  decide (rd.current.type = TokenType.Invalid)

end QXmlStreamReader

/-- `QXmlStreamAttributes::hasAttribute`. -/
def hasAttribute (attrs : List (QString × QString)) (key : String) : Bool :=
  attrs.any (fun kv => decide (kv.1 = key.toList))

/-- `QXmlStreamAttributes::value`: the value of the first attribute of that
name, empty when there is none. -/
def attrValue (attrs : List (QString × QString)) (key : String) : QString :=
  match attrs.find? (fun kv => decide (kv.1 = key.toList)) with
  | some kv => kv.2
  | none => []

/-! ## Rasters and the painter -/

namespace QImage

/-- The null image. -/
def null : QImage := ⟨0, 0, fun _ _ => Rgba.clear⟩

/-- `isNull()`. -/
def isNull (img : QImage) : Bool := decide (img.width = 0 ∨ img.height = 0)

/-- The constructor `QImage(int width, int height, Format_RGBA8888)`: a raster
with unwritten content, or the null image when a dimension is not positive or
the raster cannot be allocated. -/
def create (env : Env) (w h : Int) : QImage :=
  if 0 < w ∧ 0 < h ∧ env.allocates w.toNat h.toNat = true then
    ⟨w.toNat, h.toNat, env.uninit⟩
  else null

/-- `fill(color)`: every pixel becomes the RGBA value of the colour. -/
def fill (img : QImage) (color : QColor) : QImage :=
  { img with data := fun _ _ => color.rgba }

/-- `pixelColor(x, y)`: the colour of a pixel, the invalid colour outside the
raster. -/
def pixelColor (img : QImage) (x y : Nat) : QColor :=
  if x < img.width ∧ y < img.height then QColor.ofPixel (img.data x y)
  else QColor.invalid

/-- `setPixelColor(x, y, color)`: write one pixel; nothing is written outside
the raster or for an invalid colour. -/
def setPixelColor (img : QImage) (x y : Nat) (color : QColor) : QImage :=
  if x < img.width ∧ y < img.height ∧ color.valid = true then
    { img with data := fun x1 y1 => if x1 = x ∧ y1 = y then color.rgba else img.data x1 y1 }
  else img

end QImage

/-- Rounded division by 255 as the raster engine computes it on one channel:
`(t + (t >> 8) + 0x80) >> 8`. -/
def div255 (t : Nat) : Nat := (t + t / 256 + 128) / 256

/-- One channel of `qPremultiply` and of `BYTE_MUL`: the channel scaled by
`a / 255`. -/
def mulChannel (c a : Fin 256) : Fin 256 := Fin.ofNat (div255 (c.val * a.val))

/-- `qPremultiply` on a pixel. -/
def premultiply (p : Rgba) : Rgba :=
  ⟨mulChannel p.r p.a, mulChannel p.g p.a, mulChannel p.b p.a, p.a⟩

/-- One colour channel of `qUnpremultiply` for an alpha strictly between 0
and 255. -/
def unmulChannel (c a : Fin 256) : Fin 256 :=
  Fin.ofNat ((c.val * (16711935 / a.val) + 32768) / 65536)

/-- `qUnpremultiply` on a pixel. -/
def unpremultiply (p : Rgba) : Rgba :=
  if p.a = 255 then p
  else if p.a = 0 then Rgba.clear
  else ⟨unmulChannel p.r p.a, unmulChannel p.g p.a, unmulChannel p.b p.a, p.a⟩

/-- The composition function of `QPainter::CompositionMode_SourceOver` on
premultiplied pixels: an opaque source replaces the destination, a zero source
leaves it, any other source is added to the destination scaled by the
source's inverse alpha. -/
def compSourceOver (s d : Rgba) : Rgba :=
  if s.a = 255 then s
  else if s = Rgba.clear then d
  else
    let ia : Fin 256 := Fin.ofNat (255 - s.a.val)
    ⟨Fin.ofNat (s.r.val + (mulChannel d.r ia).val), Fin.ofNat (s.g.val + (mulChannel d.g ia).val),
     Fin.ofNat (s.b.val + (mulChannel d.b ia).val), Fin.ofNat (s.a.val + (mulChannel d.a ia).val)⟩

/-- What a painter in its default composition mode writes to an RGBA8888
destination pixel `d` when it draws the RGBA8888 source pixel `s` on it: both
are premultiplied, composed source-over, and the result is stored back. -/
def sourceOver (s d : Rgba) : Rgba :=
  unpremultiply (compSourceOver (premultiply s) (premultiply d))

/-- `painter.drawImage(x, y, tile, 0, 0, tile.width(), tile.height(), Qt::ColorOnly)`
for a painter opened on `canvas` and never given a composition mode: the whole
tile is drawn with its top-left corner at `(x, y)`, source-over, clipped to
the canvas.  `Qt::ColorOnly` is an image conversion flag and does not select a
composition.  A painter on a null canvas is inactive and a null tile draws
nothing. -/
def drawImage (canvas : QImage) (x y : Int) (tile : QImage) : QImage :=
  if canvas.isNull = true ∨ tile.isNull = true then canvas
  else
    { canvas with
      data := fun cx cy =>
        if x ≤ (cx : Int) ∧ (cx : Int) < x + tile.width ∧ y ≤ (cy : Int) ∧ (cy : Int) < y + tile.height then
          sourceOver (tile.data ((cx : Int) - x).toNat ((cy : Int) - y).toNat) (canvas.data cx cy)
        else canvas.data cx cy }

/-! ## The program -/

/-- How a run of the program can fail to return: an `ErrorInfo` is thrown, an
unsigned division by zero is executed, a loop never ends, or the model's
iteration budget is used up (which `HandleTileSet` and `HandleXMLFile`
exclude by the budget they give their loops). -/
inductive Failure where
  | thrown (e : ErrorInfo)
  | divisionByZero
  | hang
  | fuel
deriving DecidableEq

/-- `HandleTileSetAttributes` (main.cpp, lines 87-122). -/
def HandleTileSetAttributes (env : Env) (reader : QXmlStreamReader) : TileSet :=
  let attributes := reader.attributes
  { name := if hasAttribute attributes "name" then attrValue attributes "name"
            else "unamed".toList
    width := if hasAttribute attributes "width" then toUInt env 10 (attrValue attributes "width")
             else 1
    height := if hasAttribute attributes "height" then toUInt env 10 (attrValue attributes "height")
              else 1
    tile_width := if hasAttribute attributes "tilewidth" then
                    toUInt env 10 (attrValue attributes "tilewidth")
                  else 32
    tile_height := if hasAttribute attributes "tileheight" then
                     toUInt env 10 (attrValue attributes "tileheight")
                   else 32
    background := if hasAttribute attributes "background" then
                    ValueToColor env (attrValue attributes "background")
                  else QColor.fromRgb 0 0 0 0 }

/-- The first argument of the `QImage` constructor in `MakeCanvas`:
`tile_set.width*tile_set.tile_width` in `unsigned int`, converted to `int`. -/
def canvasWidth (tile_set : TileSet) : Int :=
  toInt (tile_set.width * tile_set.tile_width % UINT_MOD)

/-- The second argument of the `QImage` constructor in `MakeCanvas`. -/
def canvasHeight (tile_set : TileSet) : Int :=
  toInt (tile_set.height * tile_set.tile_height % UINT_MOD)

/-- `MakeCanvas` (main.cpp, lines 124-131). -/
def MakeCanvas (env : Env) (tile_set : TileSet) : QImage :=
  let image := QImage.create env (canvasWidth tile_set) (canvasHeight tile_set)
  image.fill tile_set.background

/-- `HandleImageAttributes` (main.cpp, lines 173-198): the `ErrorInfo` thrown
when there is no `source` attribute, the image description otherwise. -/
def HandleImageAttributes (env : Env) (reader : QXmlStreamReader) : Except ErrorInfo ImageInfo :=
  let attributes := reader.attributes
  if hasAttribute attributes "source" then
    if hasAttribute attributes "transparentcolor" then
      Except.ok { source := attrValue attributes "source"
                  transparent_color := ValueToColor env (attrValue attributes "transparentcolor")
                  has_transparent_color := true }
    else
      Except.ok { source := attrValue attributes "source"
                  transparent_color := QColor.invalid
                  has_transparent_color := false }
  else Except.error { id := 1, text := "Failed to get image source!".toList }

/-- The loop `while(!reader.isEndElement()) reader.readNext();` of `HandleImage`
and `HandleText`: the reader at the first end-of-element token at or after its
position.  When no such token is left the reader reports `Invalid` for ever
and the loop does not end. -/
def skipToEndElement : Token → List Token → Except Failure QXmlStreamReader
  | cur, [] =>
    if cur.type = TokenType.EndElement then Except.ok ⟨cur, []⟩ else Except.error Failure.hang
  | cur, t :: ts =>
    if cur.type = TokenType.EndElement then Except.ok ⟨cur, t :: ts⟩ else skipToEndElement t ts

/-- The inner loop of the transparent-colour pass of `HandleImage` (lines
220-222) on row `y`. -/
def stripRow (transparent_color : QColor) (y : Nat) (tile_image : QImage) : QImage :=
  (List.range tile_image.width).foldl
    (fun img x =>
      if img.pixelColor x y = transparent_color then img.setPixelColor x y (QColor.fromRgb 0 0 0 0)
      else img)
    tile_image

/-- The transparent-colour pass of `HandleImage` (lines 218-222). -/
def stripTransparent (transparent_color : QColor) (tile_image : QImage) : QImage :=
  (List.range tile_image.height).foldl (fun img y => stripRow transparent_color y img) tile_image

/-- The tile buffer of `HandleImage` after the source image has been drawn
into it (lines 203-214). -/
def scaledTile (env : Env) (tile_set : TileSet) (image_info : ImageInfo) : QImage :=
  let tile_image := QImage.create env (toInt tile_set.tile_width) (toInt tile_set.tile_height)
  { tile_image with
    data := env.scaledSource image_info.source tile_image.width tile_image.height }

/-- The tile that `HandleImage` returns for an image description (lines
203-223): the scaled buffer, passed through the transparent-colour pass when a
transparent colour was given. -/
def imageTile (env : Env) (tile_set : TileSet) (image_info : ImageInfo) : QImage :=
  if image_info.has_transparent_color = true then
    stripTransparent image_info.transparent_color (scaledTile env tile_set image_info)
  else scaledTile env tile_set image_info

/-- `HandleImage` (main.cpp, lines 200-231): the tile and the reader where the
function leaves it. -/
def HandleImage (env : Env) (tile_set : TileSet) (reader : QXmlStreamReader) :
    Except Failure (QImage × QXmlStreamReader) :=
  match HandleImageAttributes env reader with
  | Except.error e => Except.error (Failure.thrown e)
  | Except.ok image_info =>
    let tile_image := imageTile env tile_set image_info
    match skipToEndElement reader.current reader.rest with
    | Except.error f => Except.error f
    | Except.ok reader1 => Except.ok (tile_image, reader1)

/-- `HandleTextAttrbutes` (main.cpp, lines 233-251). -/
def HandleTextAttrbutes (env : Env) (reader : QXmlStreamReader) : TextInfo :=
  let attributes := reader.attributes
  { content := if hasAttribute attributes "content" then attrValue attributes "content"
               else "T".toList
    size := if hasAttribute attributes "size" then toUInt env 10 (attrValue attributes "size")
            else 16
    color := if hasAttribute attributes "color" then ValueToColor env (attrValue attributes "color")
             else QColor.fromRgb 255 255 0 255 }

/-- `HandleText` (main.cpp, lines 253-280): the tile and the reader where the
function leaves it. -/
def HandleText (env : Env) (tile_set : TileSet) (reader : QXmlStreamReader) :
    Except Failure (QImage × QXmlStreamReader) :=
  let tile_image :=
    (QImage.create env (toInt tile_set.tile_width) (toInt tile_set.tile_height)).fill
      (QColor.fromRgb 0 0 0 0)
  let text_info := HandleTextAttrbutes env reader
  match skipToEndElement reader.current reader.rest with
  | Except.error f => Except.error f
  | Except.ok reader1 =>
    Except.ok
      ({ tile_image with
         data := env.drawText text_info tile_image.width tile_image.height tile_image.data },
       reader1)

/-- The placement of lines 158-159: `x` and `y` in `unsigned int`, undefined
(a division by zero) when the tileset has zero columns. -/
def placement (tile_set : TileSet) (index : Nat) : Option (Nat × Nat) :=
  if tile_set.width = 0 then none
  else
    some ((index % tile_set.width) * tile_set.tile_width % UINT_MOD,
          (index / tile_set.width) * tile_set.tile_height % UINT_MOD)

/-- One call of `painter.drawImage` in `HandleTileSet`: the start token of the
child element it was made for, the value of `index`, and the placement. -/
structure Composite where
  child : Token
  index : Nat
  x : Nat
  y : Nat
deriving DecidableEq

/-- The variables of the loop of `HandleTileSet`, with the calls of
`painter.drawImage` made so far. -/
structure LoopState where
  reader : QXmlStreamReader
  canvas : QImage
  index : Nat
  log : List Composite

/-- The dispatch of lines 151-155: the tile of an `image` or `text` child, the
default-constructed (null) image for a child of any other name. -/
def dispatchChild (env : Env) (tile_set : TileSet) (reader : QXmlStreamReader) :
    Except Failure (QImage × QXmlStreamReader) :=
  if reader.name = "image".toList then HandleImage env tile_set reader
  else if reader.name = "text".toList then HandleText env tile_set reader
  else Except.ok (QImage.null, reader)

/-- The loop of `HandleTileSet` (main.cpp, lines 145-166), run for at most the
given number of iterations. -/
def tileLoop (env : Env) (tile_set : TileSet) :
    Nat → QXmlStreamReader → QImage → Nat → List Composite → Except Failure LoopState
  | 0, _, _, _, _ => Except.error Failure.fuel
  | n + 1, reader, canvas, index, log =>
    if reader.isEndElement = true then Except.ok ⟨reader, canvas, index, log⟩
    else
      match reader.rest with
      | [] => Except.error Failure.hang
      | _ :: _ =>
        let reader1 := reader.readNext
        if reader1.tokenType = TokenType.StartElement then
          match dispatchChild env tile_set reader1 with
          | Except.error f => Except.error f
          | Except.ok (tile_image, reader2) =>
            match placement tile_set index with
            | none => Except.error Failure.divisionByZero
            | some (x, y) =>
              tileLoop env tile_set n reader2.readNext
                (drawImage canvas (toInt x) (toInt y) tile_image)
                ((index + 1) % UINT_MOD)
                (log ++ [⟨reader1.current, index, x, y⟩])
        else tileLoop env tile_set n reader1 canvas index log

/-- What a call of `HandleTileSet` that returns has done: where it left the
reader, the file name and canvas it passed to `canvas.save`, and the calls of
`painter.drawImage` it made. -/
structure TileSetRun where
  reader : QXmlStreamReader
  file : QString
  canvas : QImage
  log : List Composite

/-- `HandleTileSet` (main.cpp, lines 133-171).  Every iteration of the loop
that is not the last consumes a token, so one iteration more than there are
tokens left is enough. -/
def HandleTileSet (env : Env) (reader : QXmlStreamReader) : Except Failure TileSetRun :=
  let tile_set := HandleTileSetAttributes env reader
  let canvas := MakeCanvas env tile_set
  match tileLoop env tile_set (reader.rest.length + 1) reader canvas 0 [] with
  | Except.error f => Except.error f
  | Except.ok st => Except.ok ⟨st.reader, tile_set.name ++ ".png".toList, st.canvas, st.log⟩

/-- What a call of `HandleXMLFile` has done when it ends: the calls of
`canvas.save` made, in order, and how the call ended (`none`: it returned). -/
structure FileRun where
  saved : List (QString × QImage)
  failure : Option Failure

/-- The loop of `HandleXMLFile` (main.cpp, lines 299-315) with the check that
follows it, run for at most the given number of iterations. -/
def fileLoop (env : Env) : Nat → QXmlStreamReader → List (QString × QImage) → FileRun
  | 0, _, saved => ⟨saved, some Failure.fuel⟩
  | n + 1, reader, saved =>
    if reader.atEnd = true then
      if reader.hasError = true then ⟨saved, some (Failure.thrown ⟨env.uninitId, []⟩)⟩
      else ⟨saved, none⟩
    else
      let reader1 := reader.readNext
      if reader1.tokenType = TokenType.StartElement ∨ reader1.name = "tileset".toList then
        match HandleTileSet env reader1 with
        | Except.error f => ⟨saved, some f⟩
        | Except.ok run => fileLoop env n run.reader (saved ++ [(run.file, run.canvas)])
      else fileLoop env n reader1 saved

/-- `HandleXMLFile` (main.cpp, lines 282-316) on a file that cannot be opened
(`none`) or whose content the reader reports as the given tokens. -/
def HandleXMLFile (env : Env) (file : Option (List Token)) : FileRun :=
  match file with
  | none => ⟨[], some (Failure.thrown ⟨0, "Failed to open file!".toList⟩)⟩
  | some tokens => fileLoop env (tokens.length + 2) ⟨Token.none, tokens⟩ []

/-! ## Writing token streams -/

/-- The start-of-element token of an element with the given name and
attributes. -/
def startElement (name : String) (attrs : List (String × String)) : Token :=
  ⟨TokenType.StartElement, name.toList, attrs.map (fun kv => (kv.1.toList, kv.2.toList))⟩

/-- The end-of-element token of an element with the given name. -/
def endElement (name : String) : Token := ⟨TokenType.EndElement, name.toList, []⟩

/-- A token of character data (white space between elements, for one). -/
def characters : Token := ⟨TokenType.Characters, [], []⟩

/-- The start-of-document token. -/
def startDocument : Token := ⟨TokenType.StartDocument, [], []⟩

/-- The end-of-document token. -/
def endDocument : Token := ⟨TokenType.EndDocument, [], []⟩

/-- The reader positioned at the first token of a list. -/
def readerAt (t : Token) (ts : List Token) : QXmlStreamReader := ⟨t, ts⟩

/-- The character at an offset of a string (a blank past its end). -/
def charAt (s : QString) (i : Nat) : Char := s.getD i ' '

/-- The hexadecimal digits, as the specification names them. -/
def specIsHex (c : Char) : Prop := c ∈ "0123456789abcdefABCDEF".toList

/-- The value of a hexadecimal digit, as the specification reads it: its
position among the sixteen digits, letters in either case. -/
def specHexValue (c : Char) : Nat := "0123456789abcdef".toList.indexOf c.toLower

/-- The byte written by the two characters at offsets `i` and `i + 1`. -/
def specByteAt (value : QString) (i : Nat) : Nat :=
  16 * specHexValue (charAt value i) + specHexValue (charAt value (i + 1))

instance (c : Char) : Decidable (specIsHex c) := inferInstanceAs (Decidable (c ∈ _))

/-- An environment to evaluate the program in: a text that is not a digit
string parses to zero, every raster can be allocated, unwritten rasters are
clear, every source image draws as the opaque gradient whose pixel `(x, y)` is
`(x, y, 0, 255)`, and drawing text leaves the tile as it is. -/
def Env.sample : Env :=
  { toUIntOther := fun _ _ => 0
    allocates := fun _ _ => true
    uninit := fun _ _ => Rgba.clear
    scaledSource := fun _ _ _ x y => ⟨Fin.ofNat x, Fin.ofNat y, 0, 255⟩
    drawText := fun _ _ _ d => d
    uninitId := 0 }

/-! ## Well-separated children -/

/-- A token that is no element boundary and does not end the stream: the start
of the document, character data, a comment, a DTD or a processing
instruction. -/
def Token.plain (t : Token) : Prop :=
  t.type = TokenType.StartDocument ∨ t.type = TokenType.Characters ∨ t.type = TokenType.Comment
    ∨ t.type = TokenType.DTD ∨ t.type = TokenType.ProcessingInstruction

instance (t : Token) : Decidable t.plain := by unfold Token.plain; infer_instance

/-- The tokens of a child element without content that is followed by at
least one plain token: its start token, its end token, the plain token `sep`
after it and the further plain tokens `more` before the next element. -/
structure Child where
  start : Token
  stop : Token
  sep : Token
  more : List Token

/-- The tokens of a separated child, in document order. -/
def Child.tokens (c : Child) : List Token := c.start :: c.stop :: c.sep :: c.more

/-- A separated child that `HandleTileSet` turns into a tile: a `text` element,
or an `image` element with a `source` attribute, with nothing nested, followed
by plain tokens only. -/
def Child.wellFormed (c : Child) : Prop :=
  c.start.type = TokenType.StartElement ∧
  (c.start.name = "text".toList ∨
    (c.start.name = "image".toList ∧ hasAttribute c.start.attributes "source" = true)) ∧
  c.stop.type = TokenType.EndElement ∧ c.sep.plain ∧ ∀ t ∈ c.more, t.plain

/-- The tokens of a sequence of separated children. -/
def childrenTokens : List Child → List Token
  | [] => []
  | c :: cs => c.tokens ++ childrenTokens cs

/-- The calls of `painter.drawImage` that the specification expects for a
sequence of children, the first of them at the given index: one call per
child, in document order, at consecutive indices, each at the placement of its
index. -/
def expectedComposites (tile_set : TileSet) : Nat → List Child → List Composite
  | _, [] => []
  | i, c :: cs =>
    ⟨c.start, i, (i % tile_set.width) * tile_set.tile_width % UINT_MOD,
      (i / tile_set.width) * tile_set.tile_height % UINT_MOD⟩
      :: expectedComposites tile_set ((i + 1) % UINT_MOD) cs

/-- The number of iterations the loop of `HandleTileSet` spends on a sequence
of separated children: one per child and one per plain token after the first
that follows it. -/
def childrenSteps : List Child → Nat
  | [] => 0
  | c :: cs => 1 + c.more.length + childrenSteps cs

instance (c : Child) : Decidable c.wellFormed := by unfold Child.wellFormed; infer_instance

/-! ## Theorems -/

theorem digitValue_hex (c : Char) (h : specIsHex c) :
    digitValue 16 c = some (specHexValue c) ∧ specHexValue c ≤ 15 := by
  unfold specIsHex at h
  simp only [String.toList, List.mem_cons, List.mem_singleton, List.not_mem_nil, or_false] at h
  rcases h with h | h | h | h | h | h | h | h | h | h | h | h | h | h | h | h | h | h | h | h | h | h <;>
    subst h <;> exact ⟨by decide, by decide⟩

theorem toUInt_hexPair (env : Env) (c d : Char) (hc : specIsHex c) (hd : specIsHex d) :
    toUInt env 16 [c, d] = 16 * specHexValue c + specHexValue d := by
  obtain ⟨hc1, hc2⟩ := digitValue_hex c hc
  obtain ⟨hd1, hd2⟩ := digitValue_hex d hd
  simp only [toUInt, digitsValue, hc1, hd1, Nat.zero_mul, Nat.zero_add]
  have : specHexValue c * 16 + specHexValue d < UINT_MOD := by unfold UINT_MOD; omega
  rw [if_pos this]; omega

/-! ### The colour codec -/

theorem fromRgb_of_le (r g b a : Nat) (hr : r ≤ 255) (hg : g ≤ 255) (hb : b ≤ 255) (ha : a ≤ 255) :
    (QColor.fromRgb r g b a).valid = true ∧ (QColor.fromRgb r g b a).rgba.r.val = r ∧
    (QColor.fromRgb r g b a).rgba.g.val = g ∧ (QColor.fromRgb r g b a).rgba.b.val = b ∧
    (QColor.fromRgb r g b a).rgba.a.val = a := by
  unfold QColor.fromRgb
  rw [if_pos ⟨hr, hg, hb, ha⟩]
  refine ⟨rfl, ?_, ?_, ?_, ?_⟩ <;> simp [Fin.ofNat] <;> omega

/-- C5. `ValueToColor` returns the valid colour `(0,0,0,0)` for every string
shorter than nine characters; for every string of at least nine characters
whose characters at offsets 1 to 8 are hexadecimal digits it returns the valid
colour whose red, green, blue and alpha are the bytes written at offsets 1-2,
3-4, 5-6 and 7-8. -/
theorem ValueToColor_contract (env : Env) (value : QString) :
    (value.length < 9 → ValueToColor env value = ⟨true, ⟨0, 0, 0, 0⟩⟩) ∧
    (9 ≤ value.length → (∀ i, 1 ≤ i → i ≤ 8 → specIsHex (charAt value i)) →
      (ValueToColor env value).valid = true ∧
      (ValueToColor env value).rgba.r.val = specByteAt value 1 ∧
      (ValueToColor env value).rgba.g.val = specByteAt value 3 ∧
      (ValueToColor env value).rgba.b.val = specByteAt value 5 ∧
      (ValueToColor env value).rgba.a.val = specByteAt value 7) := by
  constructor
  · intro h
    unfold ValueToColor
    rw [if_pos h]
    rfl
  · intro hlen hhex
    match value, hlen with
    | c0 :: c1 :: c2 :: c3 :: c4 :: c5 :: c6 :: c7 :: c8 :: rest, _ =>
      have h1 : specIsHex c1 := hhex 1 (by omega) (by omega)
      have h2 : specIsHex c2 := hhex 2 (by omega) (by omega)
      have h3 : specIsHex c3 := hhex 3 (by omega) (by omega)
      have h4 : specIsHex c4 := hhex 4 (by omega) (by omega)
      have h5 : specIsHex c5 := hhex 5 (by omega) (by omega)
      have h6 : specIsHex c6 := hhex 6 (by omega) (by omega)
      have h7 : specIsHex c7 := hhex 7 (by omega) (by omega)
      have h8 : specIsHex c8 := hhex 8 (by omega) (by omega)
      have hv : ValueToColor env (c0 :: c1 :: c2 :: c3 :: c4 :: c5 :: c6 :: c7 :: c8 :: rest) =
          QColor.fromRgb (16 * specHexValue c1 + specHexValue c2)
            (16 * specHexValue c3 + specHexValue c4) (16 * specHexValue c5 + specHexValue c6)
            (16 * specHexValue c7 + specHexValue c8) := by
        unfold ValueToColor
        rw [if_neg (by simp)]
        simp only [mid, List.drop, List.take, toUInt_hexPair env _ _ h1 h2,
          toUInt_hexPair env _ _ h3 h4, toUInt_hexPair env _ _ h5 h6, toUInt_hexPair env _ _ h7 h8]
      have b1 := (digitValue_hex c1 h1).2
      have b2 := (digitValue_hex c2 h2).2
      have b3 := (digitValue_hex c3 h3).2
      have b4 := (digitValue_hex c4 h4).2
      have b5 := (digitValue_hex c5 h5).2
      have b6 := (digitValue_hex c6 h6).2
      have b7 := (digitValue_hex c7 h7).2
      have b8 := (digitValue_hex c8 h8).2
      rw [hv]
      exact fromRgb_of_le _ _ _ _ (by omega) (by omega) (by omega) (by omega)

/-- The colour codec at the inputs the specification lists: `#000000FF` is
opaque black, `#FF0000` (seven characters) and the empty string are
`(0,0,0,0)`; and `#1a2B3c4D` is `(26,43,60,77)`. -/
theorem ValueToColor_contract_witness :
    ((ValueToColor Env.sample "#000000FF".toList).valid = true ∧
      (ValueToColor Env.sample "#000000FF".toList).rgba.r.val = 0 ∧
      (ValueToColor Env.sample "#000000FF".toList).rgba.g.val = 0 ∧
      (ValueToColor Env.sample "#000000FF".toList).rgba.b.val = 0 ∧
      (ValueToColor Env.sample "#000000FF".toList).rgba.a.val = 255) ∧
    ValueToColor Env.sample "#FF0000".toList = ⟨true, ⟨0, 0, 0, 0⟩⟩ ∧
    ValueToColor Env.sample "".toList = ⟨true, ⟨0, 0, 0, 0⟩⟩ ∧
    ((ValueToColor Env.sample "#1a2B3c4D".toList).valid = true ∧
      (ValueToColor Env.sample "#1a2B3c4D".toList).rgba.r.val = 26 ∧
      (ValueToColor Env.sample "#1a2B3c4D".toList).rgba.g.val = 43 ∧
      (ValueToColor Env.sample "#1a2B3c4D".toList).rgba.b.val = 60 ∧
      (ValueToColor Env.sample "#1a2B3c4D".toList).rgba.a.val = 77) := by
  refine ⟨?_, (ValueToColor_contract Env.sample "#FF0000".toList).1 (by decide),
    (ValueToColor_contract Env.sample "".toList).1 (by decide), ?_⟩
  · have h := (ValueToColor_contract Env.sample "#000000FF".toList).2 (by decide)
      (by intro i h1 h2; interval_cases i <;> decide)
    exact ⟨h.1, h.2.1.trans (by decide), h.2.2.1.trans (by decide), h.2.2.2.1.trans (by decide),
      h.2.2.2.2.trans (by decide)⟩
  · have h := (ValueToColor_contract Env.sample "#1a2B3c4D".toList).2 (by decide)
      (by intro i h1 h2; interval_cases i <;> decide)
    exact ⟨h.1, h.2.1.trans (by decide), h.2.2.1.trans (by decide), h.2.2.2.1.trans (by decide),
      h.2.2.2.2.trans (by decide)⟩

/-! ### The canvas and the placement -/

theorem toInt_of_lt (u : Nat) (h : u < 2147483648) : toInt u = (u : Int) := by
  unfold toInt UINT_MOD
  have e : u % 4294967296 = u := Nat.mod_eq_of_lt (by omega)
  rw [e, if_pos h]

theorem canvasWidth_of_lt (ts : TileSet) (h : ts.width * ts.tile_width < 2147483648) :
    canvasWidth ts = ((ts.width * ts.tile_width : Nat) : Int) := by
  unfold canvasWidth UINT_MOD
  rw [Nat.mod_eq_of_lt (by omega), toInt_of_lt _ h]

theorem canvasHeight_of_lt (ts : TileSet) (h : ts.height * ts.tile_height < 2147483648) :
    canvasHeight ts = ((ts.height * ts.tile_height : Nat) : Int) := by
  unfold canvasHeight UINT_MOD
  rw [Nat.mod_eq_of_lt (by omega), toInt_of_lt _ h]

theorem MakeCanvas_size (env : Env) (ts : TileSet)
    (hw : 0 < ts.width * ts.tile_width) (hw2 : ts.width * ts.tile_width < 2147483648)
    (hh : 0 < ts.height * ts.tile_height) (hh2 : ts.height * ts.tile_height < 2147483648)
    (halloc : env.allocates (ts.width * ts.tile_width) (ts.height * ts.tile_height) = true) :
    (MakeCanvas env ts).width = ts.width * ts.tile_width ∧
    (MakeCanvas env ts).height = ts.height * ts.tile_height := by
  unfold MakeCanvas QImage.create QImage.fill
  rw [canvasWidth_of_lt ts hw2, canvasHeight_of_lt ts hh2]
  simp only [Int.toNat_ofNat]
  rw [if_pos ⟨by exact_mod_cast hw, by exact_mod_cast hh, halloc⟩]
  exact ⟨rfl, rfl⟩

theorem MakeCanvas_data (env : Env) (ts : TileSet) (x y : Nat) :
    (MakeCanvas env ts).data x y = ts.background.rgba := rfl

/-- C6, as amended. For every `TileSet` whose products `columns × tile_width`
and `rows × tile_height` are positive and fit a signed 32-bit `int`, and whose
raster can be allocated, `MakeCanvas` returns a raster of width
`columns × tile_width` and height `rows × tile_height` in which every pixel
carries the four channels of the background colour (and reads back as the
background colour when that colour is valid). -/
theorem MakeCanvas_contract (env : Env) (ts : TileSet)
    (hw : 0 < ts.width * ts.tile_width) (hw2 : ts.width * ts.tile_width < 2147483648)
    (hh : 0 < ts.height * ts.tile_height) (hh2 : ts.height * ts.tile_height < 2147483648)
    (halloc : env.allocates (ts.width * ts.tile_width) (ts.height * ts.tile_height) = true) :
    (MakeCanvas env ts).width = ts.width * ts.tile_width ∧
    (MakeCanvas env ts).height = ts.height * ts.tile_height ∧
    ∀ x y, x < ts.width * ts.tile_width → y < ts.height * ts.tile_height →
      (MakeCanvas env ts).data x y = ts.background.rgba ∧
      (ts.background.valid = true → (MakeCanvas env ts).pixelColor x y = ts.background) := by
  obtain ⟨h1, h2⟩ := MakeCanvas_size env ts hw hw2 hh hh2 halloc
  refine ⟨h1, h2, fun x y hx hy => ⟨rfl, fun hv => ?_⟩⟩
  unfold QImage.pixelColor
  rw [if_pos ⟨by omega, by omega⟩, MakeCanvas_data]
  cases hb : ts.background with
  | mk v c =>
    rw [hb] at hv
    simp only at hv
    subst hv
    rfl

/-- The canvas builder at `columns=3, rows=2, tile_width=10, tile_height=20`:
a 30×40 raster, every pixel the background (here opaque red). -/
theorem MakeCanvas_contract_witness :
    (MakeCanvas Env.sample ⟨"t".toList, 3, 2, 10, 20, ⟨true, ⟨255, 0, 0, 255⟩⟩⟩).width = 30 ∧
    (MakeCanvas Env.sample ⟨"t".toList, 3, 2, 10, 20, ⟨true, ⟨255, 0, 0, 255⟩⟩⟩).height = 40 ∧
    ∀ x y, x < 30 → y < 40 →
      (MakeCanvas Env.sample ⟨"t".toList, 3, 2, 10, 20, ⟨true, ⟨255, 0, 0, 255⟩⟩⟩).data x y
          = ⟨255, 0, 0, 255⟩ ∧
      (true = true →
        (MakeCanvas Env.sample ⟨"t".toList, 3, 2, 10, 20, ⟨true, ⟨255, 0, 0, 255⟩⟩⟩).pixelColor x y
          = ⟨true, ⟨255, 0, 0, 255⟩⟩) :=
  MakeCanvas_contract Env.sample ⟨"t".toList, 3, 2, 10, 20, ⟨true, ⟨255, 0, 0, 255⟩⟩⟩
    (by decide) (by decide) (by decide) (by decide) rfl

/-- C6 fails as stated. With `columns = 65536` and `tile_width = 65536` the
product computed in `unsigned int` is zero, so whatever the environment the
raster `MakeCanvas` returns is not `65536 × 65536` pixels wide (it is the null
image). -/
theorem MakeCanvas_overflow_counterexample :
    ¬ ∃ env : Env,
      (MakeCanvas env ⟨"t".toList, 65536, 1, 65536, 1, ⟨true, ⟨0, 0, 0, 0⟩⟩⟩).width = 65536 * 65536 := by
  rintro ⟨env, h⟩
  have h0 : (MakeCanvas env ⟨"t".toList, 65536, 1, 65536, 1, ⟨true, ⟨0, 0, 0, 0⟩⟩⟩).width = 0 := rfl
  rw [h0] at h
  exact absurd h (by decide)

/-! ### Compositing -/

set_option maxRecDepth 100000 in
theorem mulChannel_full : ∀ c : Fin 256, mulChannel c 255 = c := by decide

set_option maxRecDepth 100000 in
theorem mulChannel_zero : ∀ c : Fin 256, mulChannel c 0 = 0 := by decide

theorem premultiply_full (p : Rgba) (h : p.a = 255) : premultiply p = p := by
  cases p with
  | mk r g b a =>
    simp only at h
    subst h
    simp [premultiply, mulChannel_full]

theorem premultiply_clear (p : Rgba) (h : p.a = 0) : premultiply p = Rgba.clear := by
  cases p with
  | mk r g b a =>
    simp only at h
    subst h
    simp [premultiply, mulChannel_zero, Rgba.clear]

theorem sourceOver_full (s d : Rgba) (h : s.a = 255) : sourceOver s d = s := by
  unfold sourceOver
  rw [premultiply_full s h]
  unfold compSourceOver
  rw [if_pos h]
  unfold unpremultiply
  rw [if_pos h]

theorem sourceOver_clear (s d : Rgba) (hs : s.a = 0) (hd : d.a = 255) : sourceOver s d = d := by
  unfold sourceOver
  rw [premultiply_clear s hs, premultiply_full d hd]
  unfold compSourceOver
  rw [if_neg (by decide), if_pos rfl]
  unfold unpremultiply
  rw [if_pos hd]

theorem drawImage_data (canvas tile : QImage) (x y : Int) (i j cx cy : Nat)
    (hi : i < tile.width) (hj : j < tile.height) (hx : (cx : Int) = x + i) (hy : (cy : Int) = y + j)
    (hcx : cx < canvas.width) (hcy : cy < canvas.height) :
    (drawImage canvas x y tile).data cx cy = sourceOver (tile.data i j) (canvas.data cx cy) := by
  unfold drawImage QImage.isNull
  rw [if_neg (by simp; omega)]
  simp only
  rw [if_pos ⟨by omega, by omega, by omega, by omega⟩]
  have e1 : ((cx : Int) - x).toNat = i := by omega
  have e2 : ((cy : Int) - y).toNat = j := by omega
  rw [e1, e2]

/-- C7, as amended. `HandleTileSet` composites a tile with the painter's
default source-over composition: a canvas pixel covered by the tile pixel
`(i, j)` becomes the source-over blend of that tile pixel on the pixel's
previous value.  An opaque tile pixel (alpha 255) replaces the canvas pixel in
all four channels; a fully transparent tile pixel (alpha 0) on an opaque
canvas pixel leaves the canvas pixel as it was. -/
theorem drawImage_contract (canvas tile : QImage) (x y : Int) (i j cx cy : Nat)
    (hi : i < tile.width) (hj : j < tile.height) (hx : (cx : Int) = x + i) (hy : (cy : Int) = y + j)
    (hcx : cx < canvas.width) (hcy : cy < canvas.height) :
    (drawImage canvas x y tile).data cx cy = sourceOver (tile.data i j) (canvas.data cx cy) ∧
    ((tile.data i j).a = 255 → (drawImage canvas x y tile).data cx cy = tile.data i j) ∧
    ((tile.data i j).a = 0 → (canvas.data cx cy).a = 255 →
      (drawImage canvas x y tile).data cx cy = canvas.data cx cy) := by
  have h := drawImage_data canvas tile x y i j cx cy hi hj hx hy hcx hcy
  refine ⟨h, fun ha => ?_, fun ha hd => ?_⟩
  · rw [h, sourceOver_full _ _ ha]
  · rw [h, sourceOver_clear _ _ ha hd]

/-- Source-over compositing on a 2×1 opaque red canvas of a 2×1 tile whose
left pixel is opaque blue and whose right pixel is fully transparent: the left
canvas pixel becomes blue, the right one stays red. -/
theorem drawImage_contract_witness :
    (drawImage ⟨2, 1, fun _ _ => ⟨255, 0, 0, 255⟩⟩ 0 0
        ⟨2, 1, fun x _ => if x = 0 then ⟨0, 0, 255, 255⟩ else ⟨0, 0, 0, 0⟩⟩).data 0 0
      = ⟨0, 0, 255, 255⟩ ∧
    (drawImage ⟨2, 1, fun _ _ => ⟨255, 0, 0, 255⟩⟩ 0 0
        ⟨2, 1, fun x _ => if x = 0 then ⟨0, 0, 255, 255⟩ else ⟨0, 0, 0, 0⟩⟩).data 1 0
      = ⟨255, 0, 0, 255⟩ :=
  ⟨(drawImage_contract ⟨2, 1, fun _ _ => ⟨255, 0, 0, 255⟩⟩
      ⟨2, 1, fun x _ => if x = 0 then ⟨0, 0, 255, 255⟩ else ⟨0, 0, 0, 0⟩⟩ 0 0 0 0 0 0
      (by decide) (by decide) (by decide) (by decide) (by decide) (by decide)).2.1 (by decide),
   (drawImage_contract ⟨2, 1, fun _ _ => ⟨255, 0, 0, 255⟩⟩
      ⟨2, 1, fun x _ => if x = 0 then ⟨0, 0, 255, 255⟩ else ⟨0, 0, 0, 0⟩⟩ 0 0 1 0 1 0
      (by decide) (by decide) (by decide) (by decide) (by decide) (by decide)).2.2 (by decide)
      (by decide)⟩

/-- C7 fails as stated. A 1×1 tileset with the opaque red background
`#FF0000FF` and one `text` child whose text draws nothing: the tile composited
at index 0 is fully transparent at `(0, 0)`, and the canvas pixel it covers is
opaque red afterwards, not the tile's pixel. -/
theorem composite_transparent_counterexample :
    ∃ run tile rd2,
      HandleTileSet Env.sample
        (readerAt
          (startElement "tileset"
            [("width", "1"), ("height", "1"), ("tilewidth", "1"), ("tileheight", "1"),
             ("background", "#FF0000FF")])
          [characters, startElement "text" [("content", "")], endElement "text", characters,
           endElement "tileset"]) = Except.ok run ∧
      HandleText Env.sample ⟨"unamed".toList, 1, 1, 1, 1, ⟨true, ⟨255, 0, 0, 255⟩⟩⟩
        (readerAt (startElement "text" [("content", "")])
          [endElement "text", characters, endElement "tileset"]) = Except.ok (tile, rd2) ∧
      run.log = [⟨startElement "text" [("content", "")], 0, 0, 0⟩] ∧
      tile.width = 1 ∧ tile.height = 1 ∧ run.canvas.width = 1 ∧ run.canvas.height = 1 ∧
      tile.data 0 0 = ⟨0, 0, 0, 0⟩ ∧
      run.canvas.data 0 0 = ⟨255, 0, 0, 255⟩ ∧
      run.canvas.data 0 0 ≠ tile.data 0 0 :=
  ⟨_, _, _, rfl, rfl, rfl, rfl, rfl, rfl, rfl, rfl, rfl, by decide⟩

/-! ### The transparent-colour pass -/

theorem fromRgb_zero : QColor.fromRgb 0 0 0 0 = ⟨true, Rgba.clear⟩ := rfl

theorem stripRow_upto (tc : QColor) (y : Nat) (img : QImage) (n : Nat) :
    ((List.range n).foldl
        (fun im x =>
          if im.pixelColor x y = tc then im.setPixelColor x y (QColor.fromRgb 0 0 0 0) else im)
        img).width = img.width ∧
    ((List.range n).foldl
        (fun im x =>
          if im.pixelColor x y = tc then im.setPixelColor x y (QColor.fromRgb 0 0 0 0) else im)
        img).height = img.height ∧
    ∀ x1 y1,
      ((List.range n).foldl
          (fun im x =>
            if im.pixelColor x y = tc then im.setPixelColor x y (QColor.fromRgb 0 0 0 0) else im)
          img).data x1 y1 =
        if x1 < n ∧ x1 < img.width ∧ y1 = y ∧ y < img.height ∧ QColor.ofPixel (img.data x1 y1) = tc
        then Rgba.clear else img.data x1 y1 := by
  induction n with
  | zero => simp
  | succ n ih =>
    rw [List.range_succ, List.foldl_append]
    simp only [List.foldl_cons, List.foldl_nil]
    obtain ⟨hw, hh, hd⟩ := ih
    generalize (List.range n).foldl
        (fun im x =>
          if im.pixelColor x y = tc then im.setPixelColor x y (QColor.fromRgb 0 0 0 0) else im)
        img = im at hw hh hd ⊢
    have hn : im.data n y = img.data n y := by
      rw [hd]; rw [if_neg]; omega
    by_cases hin : n < img.width ∧ y < img.height
    · have hpc : im.pixelColor n y = QColor.ofPixel (img.data n y) := by
        unfold QImage.pixelColor
        rw [if_pos (by rw [hw, hh]; exact hin), hn]
      by_cases heq : QColor.ofPixel (img.data n y) = tc
      · rw [if_pos (by rw [hpc]; exact heq)]
        unfold QImage.setPixelColor
        rw [if_pos ⟨by omega, by omega, rfl⟩]
        refine ⟨hw, hh, fun x1 y1 => ?_⟩
        simp only [fromRgb_zero]
        by_cases hx : x1 = n ∧ y1 = y
        · obtain ⟨rfl, rfl⟩ := hx
          rw [if_pos ⟨rfl, rfl⟩, if_pos ⟨by omega, hin.1, rfl, hin.2, heq⟩]
        · rw [if_neg hx, hd]
          by_cases hc : x1 < n ∧ x1 < img.width ∧ y1 = y ∧ y < img.height ∧
              QColor.ofPixel (img.data x1 y1) = tc
          · rw [if_pos hc, if_pos ⟨by omega, hc.2⟩]
          · rw [if_neg hc, if_neg]
            rintro ⟨h1, h2, h3, h4, h5⟩
            have : x1 ≠ n := fun e => hx ⟨e, h3⟩
            exact hc ⟨by omega, h2, h3, h4, h5⟩
      · rw [if_neg (by rw [hpc]; exact heq)]
        refine ⟨hw, hh, fun x1 y1 => ?_⟩
        rw [hd]
        by_cases hc : x1 < n ∧ x1 < img.width ∧ y1 = y ∧ y < img.height ∧
            QColor.ofPixel (img.data x1 y1) = tc
        · rw [if_pos hc, if_pos ⟨by omega, hc.2⟩]
        · rw [if_neg hc, if_neg]
          rintro ⟨h1, h2, h3, h4, h5⟩
          by_cases e : x1 = n
          · subst e; subst h3; exact heq h5
          · exact hc ⟨by omega, h2, h3, h4, h5⟩
    · have hstep : (if im.pixelColor n y = tc then im.setPixelColor n y (QColor.fromRgb 0 0 0 0)
          else im) = im := by
        split
        · unfold QImage.setPixelColor
          rw [if_neg]
          rintro ⟨h1, h2, _⟩
          exact hin ⟨by omega, by omega⟩
        · rfl
      rw [hstep]
      refine ⟨hw, hh, fun x1 y1 => ?_⟩
      rw [hd]
      by_cases hc : x1 < n ∧ x1 < img.width ∧ y1 = y ∧ y < img.height ∧
          QColor.ofPixel (img.data x1 y1) = tc
      · rw [if_pos hc, if_pos ⟨by omega, hc.2⟩]
      · rw [if_neg hc, if_neg]
        rintro ⟨h1, h2, h3, h4, h5⟩
        by_cases e : x1 = n
        · subst e; exact hin ⟨h2, h4⟩
        · exact hc ⟨by omega, h2, h3, h4, h5⟩

theorem stripRow_spec (tc : QColor) (y : Nat) (img : QImage) :
    (stripRow tc y img).width = img.width ∧ (stripRow tc y img).height = img.height ∧
    ∀ x1 y1, (stripRow tc y img).data x1 y1 =
      if x1 < img.width ∧ y1 = y ∧ y < img.height ∧ QColor.ofPixel (img.data x1 y1) = tc
      then Rgba.clear else img.data x1 y1 := by
  obtain ⟨hw, hh, hd⟩ := stripRow_upto tc y img img.width
  refine ⟨hw, hh, fun x1 y1 => ?_⟩
  unfold stripRow
  rw [hd]
  by_cases hc : x1 < img.width ∧ y1 = y ∧ y < img.height ∧ QColor.ofPixel (img.data x1 y1) = tc
  · rw [if_pos hc, if_pos ⟨hc.1, hc⟩]
  · rw [if_neg hc, if_neg (fun h => hc h.2)]

theorem stripRows_upto (tc : QColor) (img : QImage) (n : Nat) :
    ((List.range n).foldl (fun im y => stripRow tc y im) img).width = img.width ∧
    ((List.range n).foldl (fun im y => stripRow tc y im) img).height = img.height ∧
    ∀ x1 y1, ((List.range n).foldl (fun im y => stripRow tc y im) img).data x1 y1 =
      if x1 < img.width ∧ y1 < n ∧ y1 < img.height ∧ QColor.ofPixel (img.data x1 y1) = tc
      then Rgba.clear else img.data x1 y1 := by
  induction n with
  | zero => simp
  | succ n ih =>
    rw [List.range_succ, List.foldl_append]
    simp only [List.foldl_cons, List.foldl_nil]
    obtain ⟨hw, hh, hd⟩ := ih
    generalize (List.range n).foldl (fun im y => stripRow tc y im) img = im at hw hh hd ⊢
    obtain ⟨rw1, rh1, rd1⟩ := stripRow_spec tc n im
    refine ⟨rw1.trans hw, rh1.trans hh, fun x1 y1 => ?_⟩
    rw [rd1, hd, hw, hh]
    by_cases e : y1 = n
    · subst e
      have hne : ¬ (x1 < img.width ∧ y1 < y1 ∧ y1 < img.height ∧
          QColor.ofPixel (img.data x1 y1) = tc) := fun h => absurd h.2.1 (by omega)
      rw [if_neg hne]
      by_cases hc : x1 < img.width ∧ y1 < img.height ∧ QColor.ofPixel (img.data x1 y1) = tc
      · rw [if_pos ⟨hc.1, rfl, hc.2⟩, if_pos ⟨hc.1, by omega, hc.2⟩]
      · rw [if_neg (fun h => hc ⟨h.1, h.2.2⟩), if_neg (fun h => hc ⟨h.1, h.2.2⟩)]
    · rw [if_neg (fun h => e h.2.1)]
      by_cases hc : x1 < img.width ∧ y1 < n ∧ y1 < img.height ∧
          QColor.ofPixel (img.data x1 y1) = tc
      · rw [if_pos hc, if_pos ⟨hc.1, by omega, hc.2.2⟩]
      · rw [if_neg hc, if_neg]
        rintro ⟨h1, h2, h3⟩
        exact hc ⟨h1, by omega, h3⟩

theorem stripTransparent_spec (tc : QColor) (img : QImage) :
    (stripTransparent tc img).width = img.width ∧
    (stripTransparent tc img).height = img.height ∧
    ∀ x y, x < img.width → y < img.height →
      (stripTransparent tc img).data x y =
        if QColor.ofPixel (img.data x y) = tc then Rgba.clear else img.data x y := by
  obtain ⟨hw, hh, hd⟩ := stripRows_upto tc img img.height
  refine ⟨hw, hh, fun x y hx hy => ?_⟩
  unfold stripTransparent
  rw [hd]
  by_cases hc : QColor.ofPixel (img.data x y) = tc
  · rw [if_pos hc, if_pos ⟨hx, hy, hy, hc⟩]
  · rw [if_neg hc, if_neg (fun h => hc h.2.2.2)]

theorem QColor_ofPixel_eq (p : Rgba) (tc : QColor) :
    QColor.ofPixel p = tc ↔
      (tc.valid = true ∧ p.r = tc.rgba.r ∧ p.g = tc.rgba.g ∧ p.b = tc.rgba.b ∧ p.a = tc.rgba.a) := by
  cases tc with
  | mk v c =>
    cases c with
    | mk r g b a =>
      cases p with
      | mk pr pg pb pa =>
        simp only [QColor.ofPixel, QColor.mk.injEq, Rgba.mk.injEq]
        constructor
        · rintro ⟨h0, h1, h2, h3, h4⟩
          exact ⟨h0.symm, h1, h2, h3, h4⟩
        · rintro ⟨h0, h1, h2, h3, h4⟩
          exact ⟨h0.symm, h1, h2, h3, h4⟩

/-- C4. In `HandleImage`, when the element has a `transparentcolor` attribute
(and the `source` attribute, so that an image description `info` is read), the
transparent colour is the parsed attribute, the tile returned is the scaled
buffer after the post-processing pass, of the same size, and in it every pixel
whose red, green, blue and alpha all equal those of the transparent colour is
`(0,0,0,0)` while every other pixel is the pixel of the scaled buffer. -/
theorem HandleImage_transparent_contract (env : Env) (ts : TileSet) (reader : QXmlStreamReader)
    (info : ImageInfo) (hattr : HandleImageAttributes env reader = Except.ok info)
    (htc : hasAttribute reader.attributes "transparentcolor" = true) :
    info.has_transparent_color = true ∧
    info.transparent_color = ValueToColor env (attrValue reader.attributes "transparentcolor") ∧
    (∀ reader1, skipToEndElement reader.current reader.rest = Except.ok reader1 →
      HandleImage env ts reader = Except.ok (imageTile env ts info, reader1)) ∧
    (imageTile env ts info).width = (scaledTile env ts info).width ∧
    (imageTile env ts info).height = (scaledTile env ts info).height ∧
    ∀ x y, x < (scaledTile env ts info).width → y < (scaledTile env ts info).height →
      ((info.transparent_color.valid = true ∧
          ((scaledTile env ts info).data x y).r = info.transparent_color.rgba.r ∧
          ((scaledTile env ts info).data x y).g = info.transparent_color.rgba.g ∧
          ((scaledTile env ts info).data x y).b = info.transparent_color.rgba.b ∧
          ((scaledTile env ts info).data x y).a = info.transparent_color.rgba.a) →
        (imageTile env ts info).data x y = ⟨0, 0, 0, 0⟩) ∧
      (¬ (info.transparent_color.valid = true ∧
          ((scaledTile env ts info).data x y).r = info.transparent_color.rgba.r ∧
          ((scaledTile env ts info).data x y).g = info.transparent_color.rgba.g ∧
          ((scaledTile env ts info).data x y).b = info.transparent_color.rgba.b ∧
          ((scaledTile env ts info).data x y).a = info.transparent_color.rgba.a) →
        (imageTile env ts info).data x y = (scaledTile env ts info).data x y) := by
  have hinfo : info = { source := attrValue reader.attributes "source"
                        transparent_color :=
                          ValueToColor env (attrValue reader.attributes "transparentcolor")
                        has_transparent_color := true } := by
    unfold HandleImageAttributes at hattr
    simp only [htc, if_true] at hattr
    split at hattr
    · exact (Except.ok.inj hattr).symm
    · exact absurd hattr (by simp)
  have hflag : info.has_transparent_color = true := by rw [hinfo]
  have htile : imageTile env ts info =
      stripTransparent info.transparent_color (scaledTile env ts info) := by
    unfold imageTile
    rw [if_pos hflag]
  obtain ⟨sw, sh, sd⟩ := stripTransparent_spec info.transparent_color (scaledTile env ts info)
  refine ⟨hflag, by rw [hinfo], ?_, by rw [htile, sw], by rw [htile, sh], fun x y hx hy => ?_⟩
  · intro reader1 hskip
    unfold HandleImage
    rw [hattr]
    simp only [hskip]
  · rw [htile, sd x y hx hy]
    constructor
    · intro h
      rw [if_pos ((QColor_ofPixel_eq _ _).2 h)]
      rfl
    · intro h
      rw [if_neg (fun e => h ((QColor_ofPixel_eq _ _).1 e))]

/-- The pass on a 2×1 tile whose pixels are `(0,0,0,255)` and `(1,0,0,255)`,
with `transparentcolor="#000000FF"`: the first pixel becomes `(0,0,0,0)`, the
second, one off in the red channel, is unchanged. -/
theorem HandleImage_transparent_contract_witness :
    (imageTile Env.sample ⟨"t".toList, 1, 1, 2, 1, ⟨true, ⟨0, 0, 0, 0⟩⟩⟩
        ⟨"a.png".toList, ⟨true, ⟨0, 0, 0, 255⟩⟩, true⟩).data 0 0 = ⟨0, 0, 0, 0⟩ ∧
    (imageTile Env.sample ⟨"t".toList, 1, 1, 2, 1, ⟨true, ⟨0, 0, 0, 0⟩⟩⟩
        ⟨"a.png".toList, ⟨true, ⟨0, 0, 0, 255⟩⟩, true⟩).data 1 0 = ⟨1, 0, 0, 255⟩ := by
  have h := HandleImage_transparent_contract Env.sample ⟨"t".toList, 1, 1, 2, 1, ⟨true, ⟨0, 0, 0, 0⟩⟩⟩
    (readerAt (startElement "image" [("source", "a.png"), ("transparentcolor", "#000000FF")])
      [endElement "image"])
    ⟨"a.png".toList, ⟨true, ⟨0, 0, 0, 255⟩⟩, true⟩ rfl rfl
  exact ⟨(h.2.2.2.2.2 0 0 (by decide) (by decide)).1 (by decide),
    (h.2.2.2.2.2 1 0 (by decide) (by decide)).2 (by decide)⟩

/-! ### The traversal of a tileset -/

/-- C1, the defect. On the tileset `width=2, height=1, tilewidth=4,
tileheight=4` with two `text` children, `HandleTileSet` composites tile 0 at
`x = 0` and tile 1 at `x = 4` when character tokens separate the children (and
ends at the tileset's end token); when the second child follows the first
directly, it composites one tile only, never dispatches the second child, and
ends its loop at the second child's end token. -/
theorem HandleTileSet_adjacent_children (env : Env) :
    (∃ run,
      HandleTileSet env
        (readerAt
          (startElement "tileset"
            [("width", "2"), ("height", "1"), ("tilewidth", "4"), ("tileheight", "4")])
          [characters, startElement "text" [], endElement "text", characters,
           startElement "text" [], endElement "text", characters, endElement "tileset",
           endDocument]) = Except.ok run ∧
      run.log = [⟨startElement "text" [], 0, 0, 0⟩, ⟨startElement "text" [], 1, 4, 0⟩] ∧
      run.reader = readerAt (endElement "tileset") [endDocument]) ∧
    (∃ run,
      HandleTileSet env
        (readerAt
          (startElement "tileset"
            [("width", "2"), ("height", "1"), ("tilewidth", "4"), ("tileheight", "4")])
          [startElement "text" [], endElement "text", startElement "text" [], endElement "text",
           endElement "tileset", endDocument]) = Except.ok run ∧
      run.log = [⟨startElement "text" [], 0, 0, 0⟩] ∧
      run.reader = readerAt (endElement "text") [endElement "tileset", endDocument]) := by
  have hattr : ∀ rest, HandleTileSetAttributes env
      (readerAt
        (startElement "tileset"
          [("width", "2"), ("height", "1"), ("tilewidth", "4"), ("tileheight", "4")]) rest)
      = ⟨"unamed".toList, 2, 1, 4, 4, ⟨true, ⟨0, 0, 0, 0⟩⟩⟩ := fun _ => rfl
  constructor
  · refine ⟨?run, ?h1, ?h2, ?h3⟩
    case h1 =>
      simp only [HandleTileSet, hattr]
      exact rfl
    case h2 => exact rfl
    case h3 => exact rfl
  · refine ⟨?run2, ?k1, ?k2, ?k3⟩
    case k1 =>
      simp only [HandleTileSet, hattr]
      exact rfl
    case k2 => exact rfl
    case k3 => exact rfl

theorem drawImage_null (canvas : QImage) (x y : Int) : drawImage canvas x y QImage.null = canvas := by
  unfold drawImage
  have h : canvas.isNull = true ∨ QImage.null.isNull = true := Or.inr rfl
  rw [if_pos h]

/-- C8, the defect. On a tileset whose first child is the unknown element
`foo`, followed by white space and a `text` child, `HandleTileSet` throws
nothing and leaves the canvas as `MakeCanvas` built it, but its loop ends at
the end token of `foo`: the `text` child is never dispatched, and the canvas is
saved with the reader still inside the tileset. -/
theorem HandleTileSet_unknown_child (env : Env) :
    ∃ run,
      HandleTileSet env
        (readerAt (startElement "tileset" [])
          [characters, startElement "foo" [], endElement "foo", characters,
           startElement "text" [], endElement "text", characters, endElement "tileset",
           endDocument]) = Except.ok run ∧
      run.log = [⟨startElement "foo" [], 0, 0, 0⟩] ∧
      run.canvas = MakeCanvas env ⟨"unamed".toList, 1, 1, 32, 32, ⟨true, ⟨0, 0, 0, 0⟩⟩⟩ ∧
      run.reader = readerAt (endElement "foo")
        [characters, startElement "text" [], endElement "text", characters, endElement "tileset",
         endDocument] := by
  have hattr : ∀ rest, HandleTileSetAttributes env (readerAt (startElement "tileset" []) rest)
      = ⟨"unamed".toList, 1, 1, 32, 32, ⟨true, ⟨0, 0, 0, 0⟩⟩⟩ := fun _ => rfl
  refine ⟨?run, ?h1, ?h2, ?h3, ?h4⟩
  case h1 =>
    simp only [HandleTileSet, hattr]
    exact rfl
  case h2 => exact rfl
  case h3 => exact drawImage_null _ _ _
  case h4 => exact rfl

/-- C9, the defect. On a `text` element, and on an `image` element with a
source, that contains the nested element `b`, `HandleText` and `HandleImage`
return with the reader at the end token of `b`, the element's own end token
still unread. -/
theorem Handle_nested_element (env : Env) (ts : TileSet) (rest : List Token) :
    (∃ tile,
      HandleText env ts
        (readerAt (startElement "text" [])
          (startElement "b" [] :: endElement "b" :: endElement "text" :: rest))
        = Except.ok (tile, readerAt (endElement "b") (endElement "text" :: rest))) ∧
    (∃ tile,
      HandleImage env ts
        (readerAt (startElement "image" [("source", "a.png")])
          (startElement "b" [] :: endElement "b" :: endElement "image" :: rest))
        = Except.ok (tile, readerAt (endElement "b") (endElement "image" :: rest))) :=
  ⟨⟨_, rfl⟩, ⟨_, rfl⟩⟩

/-- C10, the defect. On a tileset with `width="0"` and one `text` child,
`HandleTileSet` reaches the placement with zero columns: it executes
`index % 0`, an unsigned division by zero, and does not return. -/
theorem HandleTileSet_zero_columns (env : Env) :
    (HandleTileSetAttributes env
      (readerAt (startElement "tileset" [("width", "0")])
        [characters, startElement "text" [], endElement "text", characters,
         endElement "tileset", endDocument])).width = 0 ∧
    HandleTileSet env
      (readerAt (startElement "tileset" [("width", "0")])
        [characters, startElement "text" [], endElement "text", characters,
         endElement "tileset", endDocument]) = Except.error Failure.divisionByZero := by
  have hattr : ∀ rest, HandleTileSetAttributes env
      (readerAt (startElement "tileset" [("width", "0")]) rest)
      = ⟨"unamed".toList, 0, 1, 32, 32, ⟨true, ⟨0, 0, 0, 0⟩⟩⟩ := fun _ => rfl
  refine ⟨by rw [hattr], ?_⟩
  simp only [HandleTileSet, hattr]
  rfl

/-! ### Well-separated children are processed one by one -/

theorem plain_not_element (t : Token) (h : t.plain) :
    t.type ≠ TokenType.StartElement ∧ t.type ≠ TokenType.EndElement := by
  unfold Token.plain at h
  rcases h with h | h | h | h | h <;> rw [h] <;> exact ⟨by decide, by decide⟩

theorem isEndElement_false (t : Token) (ts : List Token) (h : t.type ≠ TokenType.EndElement) :
    (QXmlStreamReader.mk t ts).isEndElement = false := by
  unfold QXmlStreamReader.isEndElement
  simp [h]

theorem tileLoop_skip (env : Env) (ts : TileSet) (sep : List Token) (hsep : ∀ t ∈ sep, t.plain) :
    ∀ (n : Nat) (cur : Token) (more : List Token) (canvas : QImage) (index : Nat)
      (log : List Composite), cur.type ≠ TokenType.EndElement →
      ∃ cur1, cur1.type ≠ TokenType.EndElement ∧
        tileLoop env ts (sep.length + n) ⟨cur, sep ++ more⟩ canvas index log
          = tileLoop env ts n ⟨cur1, more⟩ canvas index log := by
  induction sep with
  | nil =>
    intro n cur more canvas index log hcur
    exact ⟨cur, hcur, by simp⟩
  | cons t sep ih =>
    intro n cur more canvas index log hcur
    have ht := plain_not_element t (hsep t (List.mem_cons_self _ _))
    obtain ⟨cur1, h1, h2⟩ := ih (fun u hu => hsep u (List.mem_cons_of_mem _ hu)) n t more canvas
      index log ht.2
    refine ⟨cur1, h1, ?_⟩
    rw [← h2]
    have e : (t :: sep).length + n = (sep.length + n) + 1 := by simp; omega
    rw [e]
    simp only [tileLoop, isEndElement_false cur _ hcur, List.cons_append,
      QXmlStreamReader.readNext, QXmlStreamReader.tokenType, if_neg ht.1]
    simp

theorem skipToEndElement_at_end (t : Token) (l : List Token) (h : t.type = TokenType.EndElement) :
    skipToEndElement t l = Except.ok ⟨t, l⟩ := by
  cases l <;> simp [skipToEndElement, h]

theorem skipToEndElement_step (t u : Token) (l : List Token) (h : t.type ≠ TokenType.EndElement) :
    skipToEndElement t (u :: l) = skipToEndElement u l := by
  simp [skipToEndElement, h]

theorem name_of_start (t : Token) (l : List Token) (h : t.type = TokenType.StartElement) :
    (QXmlStreamReader.mk t l).name = t.name := by
  simp [QXmlStreamReader.name, h]

theorem attributes_of_start (t : Token) (l : List Token) (h : t.type = TokenType.StartElement) :
    (QXmlStreamReader.mk t l).attributes = t.attributes := by
  simp [QXmlStreamReader.attributes, h]

theorem dispatchChild_wellFormed (env : Env) (ts : TileSet) (start stop : Token)
    (l : List Token) (h1 : start.type = TokenType.StartElement)
    (h2 : start.name = "text".toList ∨
      (start.name = "image".toList ∧ hasAttribute start.attributes "source" = true))
    (h3 : stop.type = TokenType.EndElement) :
    ∃ tile, dispatchChild env ts ⟨start, stop :: l⟩ = Except.ok (tile, ⟨stop, l⟩) := by
  have hne : start.type ≠ TokenType.EndElement := by rw [h1]; decide
  have hskip : skipToEndElement start (stop :: l) = Except.ok ⟨stop, l⟩ := by
    rw [skipToEndElement_step _ _ _ hne, skipToEndElement_at_end _ _ h3]
  unfold dispatchChild
  rw [name_of_start _ _ h1]
  rcases h2 with h2 | ⟨h2, hsrc⟩
  · rw [h2, if_neg (by decide), if_pos rfl]
    unfold HandleText
    simp only [hskip]
    exact ⟨_, rfl⟩
  · rw [h2, if_pos rfl]
    unfold HandleImage HandleImageAttributes
    rw [attributes_of_start _ _ h1]
    simp only [hsrc, if_true]
    by_cases htc : hasAttribute start.attributes "transparentcolor" = true
    · simp only [htc, if_true, hskip]
      exact ⟨_, rfl⟩
    · simp only [htc, if_false, hskip]
      exact ⟨_, rfl⟩

theorem tileLoop_child (env : Env) (ts : TileSet) (c : Child) (hc : c.wellFormed)
    (hw : ts.width ≠ 0) (n : Nat) (cur : Token) (more : List Token) (canvas : QImage)
    (index : Nat) (log : List Composite) (hcur : cur.type ≠ TokenType.EndElement) :
    ∃ cur1 canvas1, cur1.type ≠ TokenType.EndElement ∧
      tileLoop env ts (1 + c.more.length + n) ⟨cur, c.tokens ++ more⟩ canvas index log
        = tileLoop env ts n ⟨cur1, more⟩ canvas1 ((index + 1) % UINT_MOD)
            (log ++ [⟨c.start, index, (index % ts.width) * ts.tile_width % UINT_MOD,
              (index / ts.width) * ts.tile_height % UINT_MOD⟩]) := by
  obtain ⟨h1, h2, h3, h4, h5⟩ := hc
  obtain ⟨tile, hd⟩ :=
    dispatchChild_wellFormed env ts c.start c.stop (c.sep :: (c.more ++ more)) h1 h2 h3
  have hsep := plain_not_element c.sep h4
  obtain ⟨cur1, hc1, hloop⟩ := tileLoop_skip env ts c.more h5 n c.sep more
    (drawImage canvas (toInt ((index % ts.width) * ts.tile_width % UINT_MOD))
      (toInt ((index / ts.width) * ts.tile_height % UINT_MOD)) tile)
    ((index + 1) % UINT_MOD)
    (log ++ [⟨c.start, index, (index % ts.width) * ts.tile_width % UINT_MOD,
      (index / ts.width) * ts.tile_height % UINT_MOD⟩]) hsep.2
  refine ⟨cur1, (drawImage canvas (toInt ((index % ts.width) * ts.tile_width % UINT_MOD))
      (toInt ((index / ts.width) * ts.tile_height % UINT_MOD)) tile), hc1, ?_⟩
  rw [← hloop]
  have e : 1 + c.more.length + n = (c.more.length + n) + 1 := by omega
  rw [e]
  simp only [tileLoop, isEndElement_false cur _ hcur, Child.tokens, List.cons_append,
    QXmlStreamReader.readNext, QXmlStreamReader.tokenType, h1, hd, placement, if_neg hw]
  simp

theorem tileLoop_children (env : Env) (ts : TileSet) (hw : ts.width ≠ 0) (cs : List Child) :
    (∀ c ∈ cs, c.wellFormed) →
    ∀ (n : Nat) (cur : Token) (more : List Token) (canvas : QImage) (index : Nat)
      (log : List Composite), cur.type ≠ TokenType.EndElement →
      ∃ cur1 canvas1 index1, cur1.type ≠ TokenType.EndElement ∧
        tileLoop env ts (childrenSteps cs + n) ⟨cur, childrenTokens cs ++ more⟩ canvas index log
          = tileLoop env ts n ⟨cur1, more⟩ canvas1 index1
              (log ++ expectedComposites ts index cs) := by
  induction cs with
  | nil =>
    intro _ n cur more canvas index log hcur
    exact ⟨cur, canvas, index, hcur, by simp [childrenSteps, childrenTokens, expectedComposites]⟩
  | cons c cs ih =>
    intro hwf n cur more canvas index log hcur
    obtain ⟨cur1, canvas1, h1, e1⟩ := tileLoop_child env ts c (hwf c (List.mem_cons_self _ _)) hw
      (childrenSteps cs + n) cur (childrenTokens cs ++ more) canvas index log hcur
    obtain ⟨cur2, canvas2, index2, h2, e2⟩ := ih (fun d hd => hwf d (List.mem_cons_of_mem _ hd)) n
      cur1 more canvas1 ((index + 1) % UINT_MOD)
      (log ++ [⟨c.start, index, (index % ts.width) * ts.tile_width % UINT_MOD,
        (index / ts.width) * ts.tile_height % UINT_MOD⟩]) h1
    refine ⟨cur2, canvas2, index2, h2, ?_⟩
    have ef : childrenSteps (c :: cs) + n = 1 + c.more.length + (childrenSteps cs + n) := by
      simp only [childrenSteps]; omega
    have et : childrenTokens (c :: cs) ++ more = c.tokens ++ (childrenTokens cs ++ more) := by
      simp only [childrenTokens, List.append_assoc]
    rw [ef, et, e1, e2]
    simp only [expectedComposites, List.append_assoc, List.singleton_append]

theorem childrenTokens_length (cs : List Child) :
    (childrenTokens cs).length = childrenSteps cs + 2 * cs.length := by
  induction cs with
  | nil => rfl
  | cons c cs ih =>
    simp only [childrenTokens, childrenSteps, List.length_append, Child.tokens, List.length_cons, ih]
    omega

/-- The loop of `HandleTileSet` on a tileset body that starts with plain tokens
and separated children: it reaches the token after them at a current token
that is no end of element, having made exactly the expected calls of
`painter.drawImage`. -/
theorem tileLoop_body (env : Env) (ts : TileSet) (sep0 : List Token) (cs : List Child)
    (hsep0 : ∀ t ∈ sep0, t.plain) (hcs : ∀ c ∈ cs, c.wellFormed)
    (hw : cs = [] ∨ ts.width ≠ 0) (n : Nat) (cur : Token) (more : List Token) (canvas : QImage)
    (hcur : cur.type ≠ TokenType.EndElement) :
    ∃ cur1 canvas1 index1, cur1.type ≠ TokenType.EndElement ∧
      tileLoop env ts (sep0.length + childrenSteps cs + n)
          ⟨cur, sep0 ++ childrenTokens cs ++ more⟩ canvas 0 []
        = tileLoop env ts n ⟨cur1, more⟩ canvas1 index1 (expectedComposites ts 0 cs) := by
  obtain ⟨cur0, h0, e0⟩ := tileLoop_skip env ts sep0 hsep0 (childrenSteps cs + n) cur
    (childrenTokens cs ++ more) canvas 0 [] hcur
  have ef : sep0.length + childrenSteps cs + n = sep0.length + (childrenSteps cs + n) := by omega
  rw [ef, List.append_assoc, e0]
  rcases hw with hw | hw
  · subst hw
    exact ⟨cur0, canvas, 0, h0, by simp [childrenSteps, childrenTokens, expectedComposites]⟩
  · obtain ⟨cur1, canvas1, index1, h1, e1⟩ :=
      tileLoop_children env ts hw cs hcs n cur0 more canvas 0 [] h0
    exact ⟨cur1, canvas1, index1, h1, by rw [e1]; simp⟩

theorem HandleTileSetAttributes_rest (env : Env) (t : Token) (l1 l2 : List Token) :
    HandleTileSetAttributes env ⟨t, l1⟩ = HandleTileSetAttributes env ⟨t, l2⟩ := rfl

theorem expectedComposites_children (ts : TileSet) (cs : List Child) :
    ∀ i, (expectedComposites ts i cs).map (fun p => p.child) = cs.map (fun c => c.start) := by
  induction cs with
  | nil => intro i; rfl
  | cons c cs ih => intro i; simp only [expectedComposites, List.map_cons, ih]

theorem expectedComposites_indices (ts : TileSet) (cs : List Child) :
    ∀ i, i + cs.length ≤ UINT_MOD →
      (expectedComposites ts i cs).map (fun p => p.index) = List.range' i cs.length := by
  induction cs with
  | nil => intro i _; rfl
  | cons c cs ih =>
    intro i hi
    simp only [List.length_cons] at hi
    simp only [expectedComposites, List.map_cons, List.length_cons, List.range'_succ]
    by_cases hcs : cs = []
    · subst hcs; rfl
    · have hpos : 0 < cs.length := List.length_pos.mpr hcs
      have e : (i + 1) % UINT_MOD = i + 1 := Nat.mod_eq_of_lt (by omega)
      rw [e, ih (i + 1) (by omega)]

/-- Separated children are processed one by one. On a tileset whose body is
plain tokens, then children that are `text` elements or `image` elements with
a source, without content and each followed by at least one plain token, then
the end token of the tileset, `HandleTileSet` returns (the column count being
non-zero when there is a child): it has made exactly one `painter.drawImage`
call per child, in document order, the child at position `i` at index `i` and
at the placement of `i`, and has left the reader at the tileset's end token. -/
theorem HandleTileSet_separated_children (env : Env) (root stop : Token)
    (sep0 rest : List Token) (cs : List Child)
    (hroot : root.type = TokenType.StartElement) (hsep0 : ∀ t ∈ sep0, t.plain)
    (hcs : ∀ c ∈ cs, c.wellFormed) (hstop : stop.type = TokenType.EndElement)
    (hw : cs = [] ∨ (HandleTileSetAttributes env ⟨root, []⟩).width ≠ 0) :
    ∃ run,
      HandleTileSet env ⟨root, sep0 ++ childrenTokens cs ++ stop :: rest⟩ = Except.ok run ∧
      run.log = expectedComposites (HandleTileSetAttributes env ⟨root, []⟩) 0 cs ∧
      run.log.length = cs.length ∧
      run.log.map (fun p => p.child) = cs.map (fun c => c.start) ∧
      (cs.length ≤ UINT_MOD → run.log.map (fun p => p.index) = List.range' 0 cs.length) ∧
      run.reader = ⟨stop, rest⟩ ∧
      run.file = (HandleTileSetAttributes env ⟨root, []⟩).name ++ ".png".toList := by
  have hne : root.type ≠ TokenType.EndElement := by rw [hroot]; decide
  have hlen : (sep0 ++ childrenTokens cs ++ stop :: rest).length + 1
      = sep0.length + childrenSteps cs + (2 * cs.length + rest.length + 2) := by
    simp only [List.length_append, List.length_cons, childrenTokens_length]
    omega
  obtain ⟨cur1, canvas1, index1, h1, e1⟩ :=
    tileLoop_body env (HandleTileSetAttributes env ⟨root, []⟩) sep0 cs hsep0 hcs hw
      (2 * cs.length + rest.length + 2) root (stop :: rest)
      (MakeCanvas env (HandleTileSetAttributes env ⟨root, []⟩)) hne
  have hstopne : stop.type ≠ TokenType.StartElement := by rw [hstop]; decide
  have e2 : tileLoop env (HandleTileSetAttributes env ⟨root, []⟩)
      (2 * cs.length + rest.length + 2) ⟨cur1, stop :: rest⟩ canvas1 index1
      (expectedComposites (HandleTileSetAttributes env ⟨root, []⟩) 0 cs)
      = Except.ok ⟨⟨stop, rest⟩, canvas1, index1,
          expectedComposites (HandleTileSetAttributes env ⟨root, []⟩) 0 cs⟩ := by
    have ef : 2 * cs.length + rest.length + 2 = (2 * cs.length + rest.length) + 1 + 1 := by omega
    rw [ef]
    simp only [tileLoop, isEndElement_false cur1 _ h1, QXmlStreamReader.readNext,
      QXmlStreamReader.tokenType, if_neg hstopne]
    simp [QXmlStreamReader.isEndElement, hstop]
  have hrun : HandleTileSet env ⟨root, sep0 ++ childrenTokens cs ++ stop :: rest⟩
      = Except.ok ⟨⟨stop, rest⟩,
          (HandleTileSetAttributes env ⟨root, []⟩).name ++ ".png".toList, canvas1,
          expectedComposites (HandleTileSetAttributes env ⟨root, []⟩) 0 cs⟩ := by
    unfold HandleTileSet
    simp only [HandleTileSetAttributes_rest env root _ []]
    rw [hlen, e1, e2]
  refine ⟨_, hrun, rfl, ?_, expectedComposites_children _ cs 0, ?_, rfl, rfl⟩
  · have := congrArg List.length (expectedComposites_children
      (HandleTileSetAttributes env ⟨root, []⟩) cs 0)
    simpa using this
  · intro hle
    exact expectedComposites_indices _ cs 0 (by omega)

/-! ### An image element without a source -/

theorem HandleImage_missing_source (env : Env) (ts : TileSet) (img : Token) (rest : List Token)
    (himg : img.type = TokenType.StartElement)
    (hsrc : hasAttribute img.attributes "source" = false) :
    HandleImage env ts ⟨img, rest⟩
      = Except.error (Failure.thrown ⟨1, "Failed to get image source!".toList⟩) := by
  unfold HandleImage HandleImageAttributes
  rw [attributes_of_start _ _ himg]
  simp [hsrc]

theorem HandleTileSet_missing_source (env : Env) (root img : Token) (sep0 rest : List Token)
    (cs : List Child) (hroot : root.type = TokenType.StartElement)
    (hsep0 : ∀ t ∈ sep0, t.plain) (hcs : ∀ c ∈ cs, c.wellFormed)
    (hw : cs = [] ∨ (HandleTileSetAttributes env ⟨root, []⟩).width ≠ 0)
    (himg : img.type = TokenType.StartElement) (hname : img.name = "image".toList)
    (hsrc : hasAttribute img.attributes "source" = false) :
    HandleTileSet env ⟨root, sep0 ++ childrenTokens cs ++ img :: rest⟩
      = Except.error (Failure.thrown ⟨1, "Failed to get image source!".toList⟩) := by
  have hne : root.type ≠ TokenType.EndElement := by rw [hroot]; decide
  have hlen : (sep0 ++ childrenTokens cs ++ img :: rest).length + 1
      = sep0.length + childrenSteps cs + (2 * cs.length + rest.length + 1 + 1) := by
    simp only [List.length_append, List.length_cons, childrenTokens_length]
    omega
  obtain ⟨cur1, canvas1, index1, h1, e1⟩ :=
    tileLoop_body env (HandleTileSetAttributes env ⟨root, []⟩) sep0 cs hsep0 hcs hw
      (2 * cs.length + rest.length + 1 + 1) root (img :: rest)
      (MakeCanvas env (HandleTileSetAttributes env ⟨root, []⟩)) hne
  unfold HandleTileSet
  simp only [HandleTileSetAttributes_rest env root _ []]
  rw [hlen, e1]
  simp only [tileLoop, isEndElement_false cur1 _ h1, QXmlStreamReader.readNext,
    QXmlStreamReader.tokenType, himg, if_true, dispatchChild, name_of_start _ _ himg, hname,
    HandleImage_missing_source env _ img rest himg hsrc]
  simp

theorem fileLoop_skip (env : Env) (pre : List Token) (hpre : ∀ t ∈ pre, t.plain) :
    ∀ (n : Nat) (cur : Token) (more : List Token) (saved : List (QString × QImage)),
      cur.type ≠ TokenType.EndDocument → cur.type ≠ TokenType.Invalid →
      ∃ cur1, cur1.type ≠ TokenType.EndDocument ∧ cur1.type ≠ TokenType.Invalid ∧
        fileLoop env (pre.length + n) ⟨cur, pre ++ more⟩ saved = fileLoop env n ⟨cur1, more⟩ saved := by
  induction pre with
  | nil =>
    intro n cur more saved h1 h2
    exact ⟨cur, h1, h2, by simp⟩
  | cons t pre ih =>
    intro n cur more saved h1 h2
    have ht : t.plain := hpre t (List.mem_cons_self _ _)
    have ht1 : t.type ≠ TokenType.EndDocument ∧ t.type ≠ TokenType.Invalid ∧
        t.type ≠ TokenType.StartElement ∧ t.type ≠ TokenType.EndElement ∧
        t.type ≠ TokenType.EntityReference := by
      unfold Token.plain at ht
      rcases ht with h | h | h | h | h <;> rw [h] <;> decide
    obtain ⟨cur1, c1, c2, e⟩ := ih (fun u hu => hpre u (List.mem_cons_of_mem _ hu)) n t more saved
      ht1.1 ht1.2.1
    refine ⟨cur1, c1, c2, ?_⟩
    rw [← e]
    have ef : (t :: pre).length + n = (pre.length + n) + 1 := by simp; omega
    have hname : (QXmlStreamReader.mk t (pre ++ more)).name = [] := by
      simp [QXmlStreamReader.name, ht1.2.2.1, ht1.2.2.2.1, ht1.2.2.2.2]
    rw [ef]
    simp only [fileLoop, QXmlStreamReader.atEnd, h1, h2, or_self, decide_False, List.cons_append,
      QXmlStreamReader.readNext, QXmlStreamReader.tokenType, ht1.2.2.1, hname]
    simp

/-- C3, as amended. Take a tileset (any start element, as `HandleXMLFile`
treats every start element as a tileset) in which the `image` element without
`source` attribute comes after plain tokens and separated children only
(`text` elements or `image` elements with a source, without content, each
followed by at least one plain token), the column count being non-zero when
there is such a child.  When the scan of `HandleXMLFile` reaches that tileset
after plain tokens, whatever has been saved before, it aborts with the
`ErrorInfo` of id 1 and no further `canvas.save` happens: the images saved are
exactly those saved before the tileset.  In particular, when that tileset is
the first element of the file, `HandleXMLFile` aborts with id 1 and nothing
has been saved. -/
theorem HandleXMLFile_missing_source (env : Env) (root img : Token)
    (pre sep0 rest : List Token) (cs : List Child)
    (hpre : ∀ t ∈ pre, t.plain) (hroot : root.type = TokenType.StartElement)
    (hsep0 : ∀ t ∈ sep0, t.plain) (hcs : ∀ c ∈ cs, c.wellFormed)
    (hw : cs = [] ∨ (HandleTileSetAttributes env ⟨root, []⟩).width ≠ 0)
    (himg : img.type = TokenType.StartElement) (hname : img.name = "image".toList)
    (hsrc : hasAttribute img.attributes "source" = false) :
    (∀ (n : Nat) (cur : Token) (saved : List (QString × QImage)),
      cur.type ≠ TokenType.EndDocument → cur.type ≠ TokenType.Invalid →
      fileLoop env (pre.length + 1 + n)
          ⟨cur, pre ++ root :: (sep0 ++ childrenTokens cs ++ img :: rest)⟩ saved
        = ⟨saved, some (Failure.thrown ⟨1, "Failed to get image source!".toList⟩)⟩) ∧
    HandleXMLFile env (some (pre ++ root :: (sep0 ++ childrenTokens cs ++ img :: rest)))
      = ⟨[], some (Failure.thrown ⟨1, "Failed to get image source!".toList⟩)⟩ := by
  have hts := HandleTileSet_missing_source env root img sep0 rest cs hroot hsep0 hcs hw himg
    hname hsrc
  have hgen : ∀ (n : Nat) (cur : Token) (saved : List (QString × QImage)),
      cur.type ≠ TokenType.EndDocument → cur.type ≠ TokenType.Invalid →
      fileLoop env (pre.length + 1 + n)
          ⟨cur, pre ++ root :: (sep0 ++ childrenTokens cs ++ img :: rest)⟩ saved
        = ⟨saved, some (Failure.thrown ⟨1, "Failed to get image source!".toList⟩)⟩ := by
    intro n cur saved h1 h2
    obtain ⟨cur1, c1, c2, e⟩ := fileLoop_skip env pre hpre (n + 1) cur
      (root :: (sep0 ++ childrenTokens cs ++ img :: rest)) saved h1 h2
    have ef : pre.length + 1 + n = pre.length + (n + 1) := by omega
    rw [ef, e]
    simp only [fileLoop, QXmlStreamReader.atEnd, c1, c2, or_self, decide_False,
      QXmlStreamReader.readNext, QXmlStreamReader.tokenType, hroot, true_or, if_true, hts]
    simp
  refine ⟨hgen, ?_⟩
  unfold HandleXMLFile
  simp only
  have hl : (pre ++ root :: (sep0 ++ childrenTokens cs ++ img :: rest)).length + 2
      = pre.length + 1 + ((sep0 ++ childrenTokens cs ++ img :: rest).length + 2) := by
    simp only [List.length_append, List.length_cons]
    omega
  rw [hl]
  exact hgen _ Token.none [] (by decide) (by decide)

/-- The amended C3 on the file
`<tileset width="2"> <text/> <image/> </tileset>`: the scan aborts with the
`ErrorInfo` of id 1 and nothing has been saved. -/
theorem HandleXMLFile_missing_source_witness :
    HandleXMLFile Env.sample
      (some [startDocument, startElement "tileset" [("width", "2")], characters,
        startElement "text" [], endElement "text", characters, startElement "image" [],
        endElement "image", characters, endElement "tileset", endDocument])
      = ⟨[], some (Failure.thrown ⟨1, "Failed to get image source!".toList⟩)⟩ :=
  (HandleXMLFile_missing_source Env.sample (startElement "tileset" [("width", "2")])
    (startElement "image" []) [startDocument] [characters]
    [endElement "image", characters, endElement "tileset", endDocument]
    [⟨startElement "text" [], endElement "text", characters, []⟩]
    (by decide) rfl (by decide) (by decide) (Or.inr (by decide)) rfl rfl rfl).2

/-- C3 fails as stated. In the file
`<set><tileset name="a"/> <tileset name="b"> <image/> </tileset></set>` the
tileset `b` contains an `image` element without `source`, and `HandleXMLFile`
aborts with the `ErrorInfo` of id 1; but `canvas.save` has happened before the
abort (for the element `set`, which is processed as a tileset and saved as
`unamed.png`), and this in every environment. -/
theorem HandleXMLFile_saved_before_abort_counterexample :
    (HandleXMLFile Env.sample
      (some [startDocument, startElement "set" [], startElement "tileset" [("name", "a")],
        endElement "tileset", characters, startElement "tileset" [("name", "b")], characters,
        startElement "image" [], endElement "image", characters, endElement "tileset",
        endElement "set", endDocument])).failure
      = some (Failure.thrown ⟨1, "Failed to get image source!".toList⟩) ∧
    (HandleXMLFile Env.sample
      (some [startDocument, startElement "set" [], startElement "tileset" [("name", "a")],
        endElement "tileset", characters, startElement "tileset" [("name", "b")], characters,
        startElement "image" [], endElement "image", characters, endElement "tileset",
        endElement "set", endDocument])).saved.map Prod.fst = ["unamed.png".toList] ∧
    ¬ ∃ env : Env,
      (HandleXMLFile env
        (some [startDocument, startElement "set" [], startElement "tileset" [("name", "a")],
          endElement "tileset", characters, startElement "tileset" [("name", "b")], characters,
          startElement "image" [], endElement "image", characters, endElement "tileset",
          endElement "set", endDocument])).saved = [] := by
  refine ⟨by decide, by decide, ?_⟩
  rintro ⟨env, h⟩
  have hl : (HandleXMLFile env
      (some [startDocument, startElement "set" [], startElement "tileset" [("name", "a")],
        endElement "tileset", characters, startElement "tileset" [("name", "b")], characters,
        startElement "image" [], endElement "image", characters, endElement "tileset",
        endElement "set", endDocument])).saved.length = 1 := rfl
  rw [h] at hl
  exact absurd hl (by decide)

/-! ### The iteration budgets are never used up -/

theorem skipToEndElement_rest : ∀ (l : List Token) (t : Token) (rd : QXmlStreamReader),
    skipToEndElement t l = Except.ok rd → rd.rest.length ≤ l.length := by
  intro l
  induction l with
  | nil =>
    intro t rd h
    unfold skipToEndElement at h
    split at h
    · cases h; exact Nat.le_refl _
    · cases h
  | cons u l ih =>
    intro t rd h
    unfold skipToEndElement at h
    split at h
    · cases h; exact Nat.le_refl _
    · exact Nat.le_succ_of_le (ih u rd h)

theorem skipToEndElement_no_fuel : ∀ (l : List Token) (t : Token),
    skipToEndElement t l ≠ Except.error Failure.fuel := by
  intro l
  induction l with
  | nil =>
    intro t h
    unfold skipToEndElement at h
    split at h <;> cases h
  | cons u l ih =>
    intro t h
    unfold skipToEndElement at h
    split at h
    · cases h
    · exact ih u h

theorem dispatchChild_rest (env : Env) (ts : TileSet) (rd rd2 : QXmlStreamReader) (tile : QImage)
    (h : dispatchChild env ts rd = Except.ok (tile, rd2)) : rd2.rest.length ≤ rd.rest.length := by
  unfold dispatchChild at h
  split at h
  · unfold HandleImage at h
    split at h
    · cases h
    · split at h
      · cases h
      · rename_i rd1 hs
        cases h
        exact skipToEndElement_rest _ _ _ hs
  · split at h
    · unfold HandleText at h
      split at h
      · cases h
      · rename_i rd1 hs
        cases h
        exact skipToEndElement_rest _ _ _ hs
    · cases h
      exact Nat.le_refl _

theorem dispatchChild_no_fuel (env : Env) (ts : TileSet) (rd : QXmlStreamReader) :
    dispatchChild env ts rd ≠ Except.error Failure.fuel := by
  intro h
  unfold dispatchChild at h
  split at h
  · unfold HandleImage at h
    split at h
    · cases h
    · split at h
      · rename_i f hs
        cases h
        exact skipToEndElement_no_fuel _ _ hs
      · cases h
  · split at h
    · unfold HandleText at h
      split at h
      · rename_i f hs
        cases h
        exact skipToEndElement_no_fuel _ _ hs
      · cases h
    · cases h

theorem readNext_rest (rd : QXmlStreamReader) : rd.readNext.rest.length ≤ rd.rest.length := by
  unfold QXmlStreamReader.readNext
  split
  · exact Nat.zero_le _
  · rename_i t l h
    rw [h]
    exact Nat.le_succ _

/-- The loop of `HandleTileSet`, given more iterations than there are tokens
left, never uses them up; and when it ends it has not gone back in the
stream. -/
theorem tileLoop_budget (env : Env) (ts : TileSet) :
    ∀ (n : Nat) (rd : QXmlStreamReader) (canvas : QImage) (index : Nat) (log : List Composite),
      rd.rest.length < n →
      tileLoop env ts n rd canvas index log ≠ Except.error Failure.fuel ∧
      ∀ st, tileLoop env ts n rd canvas index log = Except.ok st →
        st.reader.rest.length ≤ rd.rest.length := by
  intro n
  induction n with
  | zero => intro rd _ _ _ h; exact absurd h (Nat.not_lt_zero _)
  | succ n ih =>
    intro rd canvas index log hlt
    unfold tileLoop
    split
    · exact ⟨by simp, fun st h => by cases h; exact Nat.le_refl _⟩
    · split
      · exact ⟨by simp, fun st h => by cases h⟩
      · rename_i t l hrest
        have hr1 : rd.readNext = ⟨t, l⟩ := by
          unfold QXmlStreamReader.readNext
          rw [hrest]
        rw [hrest] at hlt
        simp only [List.length_cons] at hlt
        simp only [hr1]
        split
        · split
          · rename_i f hd
            refine ⟨?_, fun st h => by cases h⟩
            intro h
            cases h
            exact dispatchChild_no_fuel env ts _ hd
          · rename_i tile rd2 hd
            have h2 := dispatchChild_rest env ts _ _ _ hd
            simp only at h2
            split
            · exact ⟨by simp, fun st h => by cases h⟩
            · have h3 := readNext_rest rd2
              obtain ⟨a, b⟩ := ih rd2.readNext
                (drawImage canvas (toInt _) (toInt _) tile) ((index + 1) % UINT_MOD)
                (log ++ [⟨(QXmlStreamReader.mk t l).current, index, _, _⟩]) (by omega)
              refine ⟨a, fun st h => ?_⟩
              have := b st h
              rw [hrest]
              simp only [List.length_cons]
              omega
        · obtain ⟨a, b⟩ := ih ⟨t, l⟩ canvas index log (by simpa using (by omega : l.length < n))
          refine ⟨a, fun st h => ?_⟩
          have := b st h
          rw [hrest]
          simp only [List.length_cons]
          simp only at this
          omega

/-- `HandleTileSet` never fails for lack of iterations, and leaves the reader
no earlier in the stream than it found it. -/
theorem HandleTileSet_budget (env : Env) (rd : QXmlStreamReader) :
    HandleTileSet env rd ≠ Except.error Failure.fuel ∧
    ∀ run, HandleTileSet env rd = Except.ok run → run.reader.rest.length ≤ rd.rest.length := by
  obtain ⟨a, b⟩ := tileLoop_budget env (HandleTileSetAttributes env rd) (rd.rest.length + 1) rd
    (MakeCanvas env (HandleTileSetAttributes env rd)) 0 [] (Nat.lt_succ_self _)
  unfold HandleTileSet
  simp only
  split
  · rename_i f hf
    refine ⟨?_, fun run h => by cases h⟩
    intro h
    cases h
    exact a hf
  · rename_i st hst
    exact ⟨by simp, fun run h => by cases h; exact b st hst⟩

theorem fileLoop_budget (env : Env) :
    ∀ (n : Nat) (rd : QXmlStreamReader) (saved : List (QString × QImage)),
      (rd.atEnd = true ∧ 0 < n) ∨ rd.rest.length + 1 < n →
      (fileLoop env n rd saved).failure ≠ some Failure.fuel := by
  intro n
  induction n with
  | zero =>
    intro rd saved h
    rcases h with ⟨_, h⟩ | h <;> exact absurd h (Nat.not_lt_zero _)
  | succ n ih =>
    intro rd saved h
    unfold fileLoop
    split
    · split <;> simp
    · rename_i hend
      have hlt : rd.rest.length + 1 < n + 1 := by
        rcases h with ⟨h, _⟩ | h
        · exact absurd h hend
        · exact h
      cases hr : rd.rest with
      | nil =>
        have hnext : rd.readNext = ⟨Token.invalid, []⟩ := by
          unfold QXmlStreamReader.readNext
          rw [hr]
        rw [hr] at hlt
        simp only [List.length_nil] at hlt
        rw [hnext]
        have hno : ¬ ((QXmlStreamReader.mk Token.invalid []).tokenType = TokenType.StartElement ∨
            (QXmlStreamReader.mk Token.invalid []).name = "tileset".toList) := by decide
        simp only [if_neg hno]
        exact ih _ saved (Or.inl ⟨rfl, by omega⟩)
      | cons t l =>
        have hnext : rd.readNext = ⟨t, l⟩ := by
          unfold QXmlStreamReader.readNext
          rw [hr]
        rw [hr] at hlt
        simp only [List.length_cons] at hlt
        rw [hnext]
        simp only
        split
        · split
          · rename_i f hf
            intro hfail
            simp only [Option.some.injEq] at hfail
            subst hfail
            exact (HandleTileSet_budget env _).1 hf
          · rename_i run hrun
            have hle := (HandleTileSet_budget env _).2 run hrun
            simp only at hle
            exact ih _ _ (Or.inr (by omega))
        · exact ih _ saved (Or.inr (by simp only; omega))

/-- `HandleXMLFile` never fails for lack of iterations: the failures it reports
are thrown errors, divisions by zero and loops that do not end. -/
theorem HandleXMLFile_budget (env : Env) (file : Option (List Token)) :
    (HandleXMLFile env file).failure ≠ some Failure.fuel := by
  unfold HandleXMLFile
  split
  · simp
  · rename_i tokens
    exact fileLoop_budget env _ _ _ (Or.inr (by simp))

/-! ### Further evaluations -/

/-- The processing of separated children on
`<tileset width="2"> <text/> <image source="a.png"/> <text/> </tileset>`:
three calls of `painter.drawImage`, at indices 0, 1 and 2. -/
theorem HandleTileSet_separated_children_witness :
    ∃ run,
      HandleTileSet Env.sample
        ⟨startElement "tileset" [("width", "2")],
         [characters, startElement "text" [], endElement "text", characters,
          startElement "image" [("source", "a.png")], endElement "image", characters,
          startElement "text" [], endElement "text", characters, endElement "tileset",
          endDocument]⟩ = Except.ok run ∧
      run.log = [⟨startElement "text" [], 0, 0, 0⟩,
        ⟨startElement "image" [("source", "a.png")], 1, 32, 0⟩,
        ⟨startElement "text" [], 2, 0, 32⟩] ∧
      run.reader = ⟨endElement "tileset", [endDocument]⟩ := by
  obtain ⟨run, h1, h2, _, _, _, h6, _⟩ :=
    HandleTileSet_separated_children Env.sample (startElement "tileset" [("width", "2")])
      (endElement "tileset") [characters] [endDocument]
      [⟨startElement "text" [], endElement "text", characters, []⟩,
       ⟨startElement "image" [("source", "a.png")], endElement "image", characters, []⟩,
       ⟨startElement "text" [], endElement "text", characters, []⟩]
      rfl (by decide) (by decide) rfl (Or.inr (by decide))
  exact ⟨run, h1, h2.trans (by decide), h6⟩

/-- A consequence of the defect of C1 for C3: in the file
`<tileset><text/><image/></tileset>` the `image` element without `source`
follows a `text` element directly, is never dispatched, and `HandleXMLFile`
returns without throwing, having saved twice. -/
theorem HandleXMLFile_skipped_image (env : Env) :
    (HandleXMLFile env
      (some [startDocument, startElement "tileset" [], startElement "text" [], endElement "text",
        startElement "image" [], endElement "image", endElement "tileset", endDocument])).failure
      = none ∧
    (HandleXMLFile env
      (some [startDocument, startElement "tileset" [], startElement "text" [], endElement "text",
        startElement "image" [], endElement "image", endElement "tileset", endDocument])).saved.map
        Prod.fst = ["unamed.png".toList, "unamed.png".toList] :=
  ⟨rfl, rfl⟩

/-! ### The placement of a tile -/

theorem toInt_toNat_le (u : Nat) : (toInt u).toNat ≤ u := by
  unfold toInt UINT_MOD
  have h := Nat.mod_le u 4294967296
  split <;> omega

theorem MakeCanvas_height_le (env : Env) (ts : TileSet) :
    (MakeCanvas env ts).height ≤ ts.height * ts.tile_height := by
  show (QImage.create env (canvasWidth ts) (canvasHeight ts)).height ≤ _
  unfold QImage.create
  split
  · show (canvasHeight ts).toNat ≤ _
    unfold canvasHeight
    exact le_trans (toInt_toNat_le _) (Nat.mod_le _ _)
  · exact Nat.zero_le _

theorem create_size_le (env : Env) (w h : Nat) :
    (QImage.create env (toInt w) (toInt h)).width ≤ w ∧
    (QImage.create env (toInt w) (toInt h)).height ≤ h := by
  unfold QImage.create
  split
  · exact ⟨toInt_toNat_le w, toInt_toNat_le h⟩
  · exact ⟨Nat.zero_le _, Nat.zero_le _⟩

theorem imageTile_size_le (env : Env) (ts : TileSet) (info : ImageInfo) :
    (imageTile env ts info).width ≤ ts.tile_width ∧
    (imageTile env ts info).height ≤ ts.tile_height := by
  have hs : (scaledTile env ts info).width ≤ ts.tile_width ∧
      (scaledTile env ts info).height ≤ ts.tile_height :=
    create_size_le env ts.tile_width ts.tile_height
  unfold imageTile
  split
  · obtain ⟨sw, sh, _⟩ := stripTransparent_spec info.transparent_color (scaledTile env ts info)
    rw [sw, sh]
    exact hs
  · exact hs

theorem dispatchChild_tile_size (env : Env) (ts : TileSet) (rd rd2 : QXmlStreamReader)
    (tile : QImage) (h : dispatchChild env ts rd = Except.ok (tile, rd2)) :
    tile.width ≤ ts.tile_width ∧ tile.height ≤ ts.tile_height := by
  unfold dispatchChild at h
  split at h
  · unfold HandleImage at h
    split at h
    · cases h
    · split at h
      · cases h
      · cases h
        exact imageTile_size_le env ts _
  · split at h
    · unfold HandleText at h
      split at h
      · cases h
      · cases h
        exact create_size_le env ts.tile_width ts.tile_height
    · cases h
      exact ⟨Nat.zero_le _, Nat.zero_le _⟩

theorem drawImage_outside (canvas tile : QImage) (x y : Int) (cx cy : Nat)
    (hy : (canvas.height : Int) ≤ y) (hcy : cy < canvas.height) :
    (drawImage canvas x y tile).data cx cy = canvas.data cx cy := by
  unfold drawImage
  split
  · rfl
  · simp only
    rw [if_neg]
    omega

theorem tileLoop_start (env : Env) (ts : TileSet) (n : Nat) (cur s : Token) (rest : List Token)
    (canvas : QImage) (i x y : Nat) (log : List Composite)
    (hcur : cur.type ≠ TokenType.EndElement) (hs : s.type = TokenType.StartElement)
    (hp : placement ts i = some (x, y)) :
    tileLoop env ts (n + 1) ⟨cur, s :: rest⟩ canvas i log =
      match dispatchChild env ts ⟨s, rest⟩ with
      | Except.error f => Except.error f
      | Except.ok (tile, reader2) =>
        tileLoop env ts n reader2.readNext (drawImage canvas (toInt x) (toInt y) tile)
          ((i + 1) % UINT_MOD) (log ++ [⟨s, i, x, y⟩]) := by
  simp only [tileLoop, isEndElement_false cur _ hcur, QXmlStreamReader.readNext,
    QXmlStreamReader.tokenType, hs, hp]
  simp

/-- C2, as amended. For a tileset with at least one column and a positive tile
size whose products `columns × tile_width`, `rows × tile_height` and
`(i div columns) × tile_height` are below `2 ^ 31` (so that they fit the signed
`int` that `QImage` and `drawImage` take), the placement of `HandleTileSet` at
index `i` is `x = (i mod columns) × tile_width`, `y = (i div columns) ×
tile_height`, and the iteration of its loop that starts a child element at
index `i` draws the child's tile, which is at most `tile_width` by
`tile_height`, with `painter.drawImage` at exactly these coordinates.  When
`i < columns × rows` the tile rectangle lies inside the `columns × tile_width`
by `rows × tile_height` canvas, which is the raster of `MakeCanvas` when that
is allocated; when `i ≥ columns × rows` the rectangle starts at or below the
bottom edge of the canvas, and the call leaves every pixel of the canvas
unchanged. -/
theorem placement_contract (env : Env) (ts : TileSet) (i : Nat)
    (hc : 0 < ts.width) (htw : 0 < ts.tile_width) (hth : 0 < ts.tile_height)
    (hW : ts.width * ts.tile_width < 2147483648) (hH : ts.height * ts.tile_height < 2147483648)
    (hY : (i / ts.width) * ts.tile_height < 2147483648) :
    placement ts i = some ((i % ts.width) * ts.tile_width, (i / ts.width) * ts.tile_height) ∧
    (∀ (n : Nat) (cur s : Token) (rest : List Token) (canvas : QImage) (log : List Composite),
      cur.type ≠ TokenType.EndElement → s.type = TokenType.StartElement →
      tileLoop env ts (n + 1) ⟨cur, s :: rest⟩ canvas i log =
        match dispatchChild env ts ⟨s, rest⟩ with
        | Except.error f => Except.error f
        | Except.ok (tile, reader2) =>
          tileLoop env ts n reader2.readNext
            (drawImage canvas (((i % ts.width) * ts.tile_width : Nat) : Int)
              (((i / ts.width) * ts.tile_height : Nat) : Int) tile)
            ((i + 1) % UINT_MOD)
            (log ++ [⟨s, i, (i % ts.width) * ts.tile_width, (i / ts.width) * ts.tile_height⟩])) ∧
    (∀ (rd rd2 : QXmlStreamReader) (tile : QImage),
      dispatchChild env ts rd = Except.ok (tile, rd2) →
      tile.width ≤ ts.tile_width ∧ tile.height ≤ ts.tile_height) ∧
    (i < ts.width * ts.height →
      (i % ts.width) * ts.tile_width + ts.tile_width ≤ ts.width * ts.tile_width ∧
      (i / ts.width) * ts.tile_height + ts.tile_height ≤ ts.height * ts.tile_height ∧
      (env.allocates (ts.width * ts.tile_width) (ts.height * ts.tile_height) = true →
        (i % ts.width) * ts.tile_width + ts.tile_width ≤ (MakeCanvas env ts).width ∧
        (i / ts.width) * ts.tile_height + ts.tile_height ≤ (MakeCanvas env ts).height)) ∧
    (ts.width * ts.height ≤ i →
      ts.height * ts.tile_height ≤ (i / ts.width) * ts.tile_height ∧
      (MakeCanvas env ts).height ≤ (i / ts.width) * ts.tile_height ∧
      ∀ (canvas tile : QImage) (cx cy : Nat),
        canvas.height = (MakeCanvas env ts).height → cy < canvas.height →
        (drawImage canvas (((i % ts.width) * ts.tile_width : Nat) : Int)
          (((i / ts.width) * ts.tile_height : Nat) : Int) tile).data cx cy = canvas.data cx cy) := by
  have hmod : i % ts.width < ts.width := Nat.mod_lt _ hc
  have hx : (i % ts.width) * ts.tile_width + ts.tile_width ≤ ts.width * ts.tile_width := by
    calc (i % ts.width) * ts.tile_width + ts.tile_width
        = (i % ts.width + 1) * ts.tile_width := by ring
      _ ≤ ts.width * ts.tile_width := Nat.mul_le_mul_right _ hmod
  have hp : placement ts i
      = some ((i % ts.width) * ts.tile_width, (i / ts.width) * ts.tile_height) := by
    have hx1 : (i % ts.width) * ts.tile_width < 4294967296 := by omega
    have hy1 : (i / ts.width) * ts.tile_height < 4294967296 := by omega
    unfold placement UINT_MOD
    rw [if_neg (by omega), Nat.mod_eq_of_lt hx1, Nat.mod_eq_of_lt hy1]
  refine ⟨hp, ?_, fun rd rd2 tile h => dispatchChild_tile_size env ts rd rd2 tile h, ?_, ?_⟩
  · intro n cur s rest canvas log hcur hs
    rw [tileLoop_start env ts n cur s rest canvas i _ _ log hcur hs hp,
      toInt_of_lt _ (by omega), toInt_of_lt _ hY]
  · intro hi
    have hdiv : i / ts.width < ts.height := by
      rw [Nat.div_lt_iff_lt_mul hc]
      rw [Nat.mul_comm]; exact hi
    have hy : (i / ts.width) * ts.tile_height + ts.tile_height ≤ ts.height * ts.tile_height := by
      calc (i / ts.width) * ts.tile_height + ts.tile_height
          = (i / ts.width + 1) * ts.tile_height := by ring
        _ ≤ ts.height * ts.tile_height := Nat.mul_le_mul_right _ hdiv
    refine ⟨hx, hy, fun halloc => ?_⟩
    have hpos1 : 0 < ts.width * ts.tile_width := Nat.mul_pos hc htw
    have hpos2 : 0 < ts.height * ts.tile_height :=
      Nat.mul_pos (Nat.lt_of_le_of_lt (Nat.zero_le _) hdiv) hth
    obtain ⟨e1, e2⟩ := MakeCanvas_size env ts hpos1 hW hpos2 hH halloc
    rw [e1, e2]
    exact ⟨hx, hy⟩
  · intro hi
    have hdiv : ts.height ≤ i / ts.width := by
      rw [Nat.le_div_iff_mul_le hc]
      rw [Nat.mul_comm]; exact hi
    have hy : ts.height * ts.tile_height ≤ (i / ts.width) * ts.tile_height :=
      Nat.mul_le_mul_right _ hdiv
    have hcanvas := le_trans (MakeCanvas_height_le env ts) hy
    refine ⟨hy, hcanvas, fun canvas tile cx cy hch hcy => ?_⟩
    exact drawImage_outside canvas tile _ _ cx cy (by rw [hch]; exact_mod_cast hcanvas) hcy

/-- The amended C2 at the specification's example, `columns = 4` and index 5,
in a 4×2 grid of 8×16 tiles: the placement is `(1 × 8, 1 × 16)`, inside the
32×32 canvas; at index 9 the placement is `(8, 32)`, below the canvas, and
drawing a tile there leaves the canvas pixel `(8, 31)` as it was. -/
theorem placement_contract_witness :
    placement ⟨"t".toList, 4, 2, 8, 16, ⟨true, ⟨0, 0, 0, 0⟩⟩⟩ 5 = some (1 * 8, 1 * 16) ∧
    (1 * 8 + 8 ≤ (MakeCanvas Env.sample ⟨"t".toList, 4, 2, 8, 16, ⟨true, ⟨0, 0, 0, 0⟩⟩⟩).width ∧
      1 * 16 + 16
        ≤ (MakeCanvas Env.sample ⟨"t".toList, 4, 2, 8, 16, ⟨true, ⟨0, 0, 0, 0⟩⟩⟩).height) ∧
    placement ⟨"t".toList, 4, 2, 8, 16, ⟨true, ⟨0, 0, 0, 0⟩⟩⟩ 9 = some (1 * 8, 2 * 16) ∧
    (drawImage (MakeCanvas Env.sample ⟨"t".toList, 4, 2, 8, 16, ⟨true, ⟨0, 0, 0, 0⟩⟩⟩)
        ((1 * 8 : Nat) : Int) ((2 * 16 : Nat) : Int)
        ⟨8, 16, fun _ _ => ⟨0, 0, 255, 255⟩⟩).data 8 31
      = (MakeCanvas Env.sample ⟨"t".toList, 4, 2, 8, 16, ⟨true, ⟨0, 0, 0, 0⟩⟩⟩).data 8 31 := by
  have h5 := placement_contract Env.sample ⟨"t".toList, 4, 2, 8, 16, ⟨true, ⟨0, 0, 0, 0⟩⟩⟩ 5
    (by decide) (by decide) (by decide) (by decide) (by decide) (by decide)
  have h9 := placement_contract Env.sample ⟨"t".toList, 4, 2, 8, 16, ⟨true, ⟨0, 0, 0, 0⟩⟩⟩ 9
    (by decide) (by decide) (by decide) (by decide) (by decide) (by decide)
  exact ⟨h5.1, (h5.2.2.2.1 (by decide)).2.2 rfl, h9.1,
    (h9.2.2.2.2 (by decide)).2.2 _ ⟨8, 16, fun _ _ => ⟨0, 0, 255, 255⟩⟩ 8 31 rfl (by decide)⟩

/-- C2 fails as stated. In a 1×1 grid of tiles 1 wide and 1500000001 high,
index 2 is beyond the grid and none of the products `1 × 1`,
`1 × 1500000001`, `2 × 1500000001 = 3000000002` overflows 32 bits; but
`drawImage` takes `int` coordinates, `y` arrives as `-1294967294`, and the
tile is painted over the canvas: after two `text` children that draw nothing
and an `image` child at index 2, the canvas pixel `(0, 0)` is no longer the
red background. -/
theorem placement_signed_counterexample :
    placement ⟨"unamed".toList, 1, 1, 1, 1500000001, ⟨true, ⟨255, 0, 0, 255⟩⟩⟩ 2
      = some (0, 3000000002) ∧
    1 * 1 ≤ 2 ∧ 1 * 1500000001 < 4294967296 ∧ 3000000002 < 4294967296 ∧
    toInt 3000000002 = -1294967294 ∧
    ∃ run,
      HandleTileSet Env.sample
        ⟨startElement "tileset"
          [("tilewidth", "1"), ("tileheight", "1500000001"), ("background", "#FF0000FF")],
         [characters, startElement "text" [("content", "")], endElement "text", characters,
          startElement "text" [("content", "")], endElement "text", characters,
          startElement "image" [("source", "a.png")], endElement "image", characters,
          endElement "tileset", endDocument]⟩ = Except.ok run ∧
      run.log = [⟨startElement "text" [("content", "")], 0, 0, 0⟩,
        ⟨startElement "text" [("content", "")], 1, 0, 1500000001⟩,
        ⟨startElement "image" [("source", "a.png")], 2, 0, 3000000002⟩] ∧
      run.canvas.width = 1 ∧ run.canvas.height = 1500000001 ∧
      (MakeCanvas Env.sample
        ⟨"unamed".toList, 1, 1, 1, 1500000001, ⟨true, ⟨255, 0, 0, 255⟩⟩⟩).data 0 0
        = ⟨255, 0, 0, 255⟩ ∧
      run.canvas.data 0 0 = ⟨0, 254, 0, 255⟩ :=
  ⟨by decide, by decide, by decide, by decide, by decide, _, rfl, rfl, rfl, rfl, rfl, rfl⟩

end TileMerge
